import Mathlib

/-! RobotKin: the solvers and mass functions of `Solvers.cpp`

A shallow embedding of `src/src/Solvers.cpp`: the IK entry points
(`Robot::dampedLeastSquaresIK_chain`, its name-based and linkage-based
front ends, and the three disabled solvers), the mass and centre-of-mass
functions of `Robot` and `Linkage`, and `pinv`; together with the result
codes and `indexParentIndexPair` of `src/include/Robot.h`.

Conventions of the embedding.

* Scalars (`double`) are elements of a linearly ordered field `K`; the
  arithmetic is exact.  Concrete runs use `ℚ`.
* `VectorXd` is a `List K`; the 6×n Jacobian is the list of its n columns,
  one `Vector6d` per selected joint.
* A C++ method that mutates `jointValues` and the robot returns the result
  code together with the new `jointValues` and the new robot.
* The members of `Robot`, `Linkage` and `Frame` that `Solvers.cpp` calls but
  whose bodies are in other translation units, and the Eigen routines
  `AngleAxisd(R)` and `colPivHouseholderQr().solve`, are the fields of
  `Kinematics`.
* `err.norm() > tolerance` is written `tolerance * tolerance < err ⬝ᵥ err`,
  which is the same comparison for the non-negative tolerance the code uses
  and needs no square root.
* A quotient by a mass returns an `Option`: `none` is the vector of NaN or
  infinite components that a division by zero produces.
-/

open Matrix

namespace RobotKin

/-! ## Result codes and Eigen types -/

/-- Result codes: the enum `rk_result_t` of Robot.h, with the code
`RK_SOLVER_NOT_READY` that Solvers.cpp returns from the disabled solvers. -/
inductive rk_result_t where
  | RK_SOLVED
  | RK_CONVERGED
  | RK_DIVERGED
  | RK_NO_SOLUTION
  | RK_INVALID_JOINT
  | RK_INVALID_LINKAGE
  | RK_SOLVER_NOT_READY
  deriving DecidableEq, Repr

open rk_result_t

/-- Eigen `VectorXd`: a vector of run-time length. -/
abbrev VectorXd (K : Type) := List K

/-- Eigen `Matrix<double, 6, 1>`. -/
abbrev Vector6d (K : Type) := Fin 6 → K

/-- Eigen `Matrix<double, 6, 6>`. -/
abbrev Matrix6d (K : Type) := Matrix (Fin 6) (Fin 6) K

/-- The type `TRANSLATION` (an Eigen `Vector3d`). -/
abbrev TRANSLATION (K : Type) := Fin 3 → K

/-- The 6×n matrix `Matrix6Xd` of Robot.h, kept as the list of its columns. -/
abbrev Matrix6Xd (K : Type) := List (Vector6d K)

/-- The type `TRANSFORM` (an Eigen `Isometry3d`): a rotation and a translation. -/
structure TRANSFORM (K : Type) where
  rotation : Matrix (Fin 3) (Fin 3) K
  translation : TRANSLATION K

/-- Eigen `AngleAxisd`. -/
structure AngleAxisd (K : Type) where
  angle : K
  axis : Fin 3 → K

section Defs

variable {K : Type} [LinearOrderedField K]

/-- `Isometry3d::Identity()`. -/
def TRANSFORM.Identity : TRANSFORM K := ⟨1, 0⟩

/-- Product of two isometries, `a * b`: first `b`, then `a`. -/
def TRANSFORM.mul (a b : TRANSFORM K) : TRANSFORM K :=
  ⟨a.rotation * b.rotation, a.rotation *ᵥ b.translation + a.translation⟩

/-- `v.squaredNorm()` of a `Vector6d`. -/
def squaredNorm (v : Vector6d K) : K := v ⬝ᵥ v

/-- `a += b` on `VectorXd`, componentwise (Eigen requires equal sizes). -/
def vadd (a b : VectorXd K) : VectorXd K := List.zipWith (fun x y => x + y) a b

/-- `J * J.transpose()` for the 6×n matrix with columns `J`. -/
def mulTranspose (J : Matrix6Xd K) : Matrix6d K :=
  (J.map (fun c => Matrix.vecMulVec c c)).sum

/-- `J.transpose() * f`: one entry per column of `J`. -/
def transposeMulVec (J : Matrix6Xd K) (f : Vector6d K) : VectorXd K :=
  J.map (fun c => c ⬝ᵥ f)

/-- The matrix `J*J.transpose() + damp*damp*Matrix6d::Identity()` of line 779. -/
def dampedMatrix (damp : K) (J : Matrix6Xd K) : Matrix6d K :=
  mulTranspose J + (damp * damp) • (1 : Matrix6d K)

/-- What is assumed of `colPivHouseholderQr().solve` where a theorem needs it:
for a nonsingular matrix it returns the solution of the system. -/
def SolvesNonsingular (solve : Matrix6d K → Vector6d K → Vector6d K) : Prop :=
  ∀ (A : Matrix6d K) (b : Vector6d K), A.det ≠ 0 → A *ᵥ solve A b = b

/-- `jointIndices.back()`.  On an empty vector the C++ is undefined; this
function returns 0 there, so a statement about every index list says nothing
more than the code does on the non-empty ones. -/
def back (jointIndices : List Nat) : Nat := jointIndices.getLastD 0

/-! ## Linkages and the robot interface -/

/-- The part of `Linkage::Joint` that the solvers read: `id()`. -/
structure Joint where
  id : Nat
  deriving DecidableEq, Repr

/-- The part of `Linkage` that the solvers read: `name()`, `joints_` and
`tool().respectToFixed()`. -/
structure Linkage (K : Type) where
  name : String
  joints_ : List Joint
  tool_respectToFixed : TRANSFORM K

/-- What Solvers.cpp uses from outside the file.  `Robot` is the state of the
robot object (joint values and cached frames included).

* `jointNameToIndex_ r n` is `jointNameToIndex_.find(n)` (Robot.h, line 211);
* `linkageByName r n` is the registered linkage of that name, if any
  (`linkageNameToIndex_` and `linkages_`, Robot.h, lines 208-209);
* `values r idx q` is the robot after `values(idx, q)`;
* `respectToRobot r i` is `joint(i).respectToRobot()`, which for a valid index
  is also `joints_[i]->respectToRobot()`;
* `jacobian r idx p` is the matrix that `jacobian(J, joints, p, this)` stores
  in `J`, where `joints[i] = joints_[idx[i]]`;
* `angleAxis R` is Eigen `AngleAxisd(R)`;
* `solve A b` is Eigen `A.colPivHouseholderQr().solve(b)`. -/
structure Kinematics (K : Type) (Robot : Type) where
  jointNameToIndex_ : Robot → String → Option Nat
  linkageByName : Robot → String → Option (Linkage K)
  values : Robot → List Nat → VectorXd K → Robot
  respectToRobot : Robot → Nat → TRANSFORM K
  jacobian : Robot → List Nat → TRANSLATION K → Matrix6Xd K
  angleAxis : Matrix (Fin 3) (Fin 3) K → AngleAxisd K
  solve : Matrix6d K → Vector6d K → Vector6d K

/-- What an IK call leaves behind: the returned code, `jointValues` (passed by
reference) and the robot. -/
structure IKOutcome (K : Type) (Robot : Type) where
  result : rk_result_t
  jointValues : VectorXd K
  robot : Robot

/-- The sentinel linkage returned for an unknown name. -/
def invalidLinkage : Linkage K := ⟨"invalid", [], TRANSFORM.Identity⟩

variable {Robot : Type}

/-- Modelled from the spec: `Robot::linkage(string)` is defined in Robot.cpp,
which is not among the sources.  The spec (§6) says that a missing linkage
surfaces as an `invalid` linkage whose name compares equal to "invalid";
a registered name yields its linkage. -/
def linkage (M : Kinematics K Robot) (robot : Robot) (linkageName : String) : Linkage K :=
  match M.linkageByName robot linkageName with
  | some L => L
  | none => invalidLinkage

/-- Modelled from the spec: `Robot::jointNamesToIndices` is defined in
Robot.cpp, which is not among the sources.  The spec (§7, §4.8) says that a
name that is not found is reported as `invalid_joint`; the loop is the one
left in comments at Solvers.cpp lines 813-821 and written out in the other
three name-based solvers: the index vector is resized to the number of names,
each name is looked up in `jointNameToIndex_`, the first miss returns
`RK_INVALID_JOINT`, and `RK_SOLVED` is returned when every name was found. -/
def jointNamesToIndices (find : String → Option Nat) :
    List String → rk_result_t × List Nat
  | [] => (RK_SOLVED, [])
  | n :: ns =>
    match find n with
    | none => (RK_INVALID_JOINT, List.replicate (ns.length + 1) 0)
    | some j =>
      let r := jointNamesToIndices find ns
      (r.1, j :: r.2)

/-! ## Damped least squares, index-based (Solvers.cpp lines 738-802) -/

/-- The 6-D pose error of lines 767-772 and 786-791:
`Terr = target.translation() - pose.translation()`,
`Rerr = aagoal.angle()*aagoal.axis() - aastate.angle()*aastate.axis()`,
`err << Terr, Rerr`. -/
def poseError (angleAxis : Matrix (Fin 3) (Fin 3) K → AngleAxisd K)
    (target pose : TRANSFORM K) : Vector6d K :=
  let aagoal := angleAxis target.rotation
  let aastate := angleAxis pose.rotation
  let Terr : TRANSLATION K := target.translation - pose.translation
  let Rerr : TRANSLATION K := aagoal.angle • aagoal.axis - aastate.angle • aastate.axis
  ![Terr 0, Terr 1, Terr 2, Rerr 0, Rerr 1, Rerr 2]

/-- The end-effector pose `joint(jointIndices.back()).respectToRobot()*finalTF`. -/
def endPose (M : Kinematics K Robot) (robot : Robot) (jointIndices : List Nat)
    (finalTF : TRANSFORM K) : TRANSFORM K :=
  (M.respectToRobot robot (back jointIndices)).mul finalTF

/-- The rotation half (entries 3, 4, 5) of a 6-D error. -/
def rotationPart (err : Vector6d K) : TRANSLATION K := ![err 3, err 4, err 5]

/-- The matrix of the map `v ↦ k × v`. -/
def crossMatrix (k : Fin 3 → K) : Matrix (Fin 3) (Fin 3) K :=
  !![0, -k 2, k 1; k 2, 0, -k 0; -k 1, k 0, 0]

/-- The variables that live across iterations of the do-while loop. -/
structure DlsState (K : Type) (Robot : Type) where
  robot : Robot
  jointValues : VectorXd K
  err : Vector6d K
  iterations : Nat

/-- The Jacobian of line 777, taken at the point
`joints.back()->respectToRobot().translation()+finalTF.translation()`. -/
def dlsJacobian (M : Kinematics K Robot) (jointIndices : List Nat) (finalTF : TRANSFORM K)
    (robot : Robot) : Matrix6Xd K :=
  M.jacobian robot jointIndices
    ((M.respectToRobot robot (back jointIndices)).translation + finalTF.translation)

/-- Lines 779-780: `f = (J*J.transpose() + damp*damp*I).colPivHouseholderQr().solve(err)`,
`delta = J.transpose()*f`. -/
def dlsDelta (M : Kinematics K Robot) (damp : K) (J : Matrix6Xd K) (err : Vector6d K) :
    VectorXd K :=
  let f := M.solve (dampedMatrix damp J) err
  transposeMulVec J f

/-- The increment `delta` that one pass of the loop computes from the loop
variables `s`, lines 777-780. -/
def dlsIncrement (M : Kinematics K Robot) (jointIndices : List Nat) (finalTF : TRANSFORM K)
    (damp : K) (s : DlsState K Robot) : VectorXd K :=
  let J := dlsJacobian M jointIndices finalTF s.robot
  dlsDelta M damp J s.err

/-- One pass through the body of the do-while loop, lines 777-793. -/
def dlsBody (M : Kinematics K Robot) (jointIndices : List Nat) (target finalTF : TRANSFORM K)
    (damp : K) (s : DlsState K Robot) : DlsState K Robot :=
  let delta := dlsIncrement M jointIndices finalTF damp s
  let jointValues := vadd s.jointValues delta
  let robot := M.values s.robot jointIndices jointValues
  let pose := endPose M robot jointIndices finalTF
  let err := poseError M.angleAxis target pose
  ⟨robot, jointValues, err, s.iterations + 1⟩

/-- The do-while loop of lines 775-796:
`do { body } while(err.norm() > tolerance && iterations < maxIterations)`,
the condition being tested on the variables as the body leaves them. -/
def dlsLoop (M : Kinematics K Robot) (jointIndices : List Nat) (target finalTF : TRANSFORM K)
    (damp tolerance : K) (maxIterations : Nat) (s : DlsState K Robot) : DlsState K Robot :=
  if tolerance * tolerance < squaredNorm (dlsBody M jointIndices target finalTF damp s).err
      ∧ (dlsBody M jointIndices target finalTF damp s).iterations < maxIterations then
    dlsLoop M jointIndices target finalTF damp tolerance maxIterations
      (dlsBody M jointIndices target finalTF damp s)
  else
    dlsBody M jointIndices target finalTF damp s
termination_by maxIterations - s.iterations
decreasing_by
  simp only [dlsBody] at *
  omega

/-- The loop variables on entry to the loop, lines 765-774. -/
def dlsInit (M : Kinematics K Robot) (robot : Robot) (jointIndices : List Nat)
    (jointValues : VectorXd K) (target finalTF : TRANSFORM K) : DlsState K Robot :=
  let robot := M.values robot jointIndices jointValues
  let pose := endPose M robot jointIndices finalTF
  ⟨robot, jointValues, poseError M.angleAxis target pose, 0⟩

/-- The loop variables on exit from the loop, with the settings of lines
761-763: `tolerance = 0.001`, `maxIterations = 100`, `damp = 0.05`. -/
def dlsFinal (M : Kinematics K Robot) (robot : Robot) (jointIndices : List Nat)
    (jointValues : VectorXd K) (target finalTF : TRANSFORM K) : DlsState K Robot :=
  dlsLoop M jointIndices target finalTF (5 / 100) (1 / 1000) 100
    (dlsInit M robot jointIndices jointValues target finalTF)

/-- `Robot::dampedLeastSquaresIK_chain(const vector<size_t>&, ...)`. -/
def dampedLeastSquaresIK_chain (M : Kinematics K Robot) (robot : Robot)
    (jointIndices : List Nat) (jointValues : VectorXd K) (target finalTF : TRANSFORM K) :
    IKOutcome K Robot :=
  let s := dlsFinal M robot jointIndices jointValues target finalTF
  if s.iterations < 100 then
    ⟨RK_SOLVED, s.jointValues, s.robot⟩
  else
    ⟨RK_DIVERGED, s.jointValues, s.robot⟩

/-- `Robot::dampedLeastSquaresIK_chain(const vector<string>&, ...)`, lines
804-824.  The call on line 823 passes three arguments, so the index-based
solver runs with its default `finalTF = Isometry3d::Identity()`. -/
def dampedLeastSquaresIK_chain_names (M : Kinematics K Robot) (robot : Robot)
    (jointNames : List String) (jointValues : VectorXd K) (target _finalTF : TRANSFORM K) :
    IKOutcome K Robot :=
  let r := jointNamesToIndices (M.jointNameToIndex_ robot) jointNames
  if r.1 = RK_INVALID_JOINT then
    ⟨RK_INVALID_JOINT, jointValues, robot⟩
  else
    dampedLeastSquaresIK_chain M robot r.2 jointValues target TRANSFORM.Identity

/-- `Robot::dampedLeastSquaresIK_linkage`, lines 827-842. -/
def dampedLeastSquaresIK_linkage (M : Kinematics K Robot) (robot : Robot)
    (linkageName : String) (jointValues : VectorXd K) (target finalTF : TRANSFORM K) :
    IKOutcome K Robot :=
  if (linkage M robot linkageName).name = "invalid" then
    ⟨RK_INVALID_LINKAGE, jointValues, robot⟩
  else
    let jointIndices := (linkage M robot linkageName).joints_.map Joint.id
    let linkageFinalTF := (linkage M robot linkageName).tool_respectToFixed.mul finalTF
    dampedLeastSquaresIK_chain M robot jointIndices jointValues target linkageFinalTF

/-! ## The disabled solvers -/

/-- `Robot::selectivelyDampedLeastSquaresIK_chain(const vector<size_t>&, ...)`:
the first statement, line 372, is `return RK_SOLVER_NOT_READY;`. -/
def selectivelyDampedLeastSquaresIK_chain (robot : Robot) (_jointIndices : List Nat)
    (jointValues : VectorXd K) (_target _finalTF : TRANSFORM K) : IKOutcome K Robot :=
  ⟨RK_SOLVER_NOT_READY, jointValues, robot⟩

/-- `Robot::pseudoinverseIK_chain(const vector<size_t>&, ...)`: the first
statement, line 535, is `return RK_SOLVER_NOT_READY;`. -/
def pseudoinverseIK_chain (robot : Robot) (_jointIndices : List Nat)
    (jointValues : VectorXd K) (_target _finalTF : TRANSFORM K) : IKOutcome K Robot :=
  ⟨RK_SOLVER_NOT_READY, jointValues, robot⟩

/-- `Robot::jacobianTransposeIK_chain(const vector<size_t>&, ...)`: the first
statement, line 641, is `return RK_SOLVER_NOT_READY;`. -/
def jacobianTransposeIK_chain (robot : Robot) (_jointIndices : List Nat)
    (jointValues : VectorXd K) (_target _finalTF : TRANSFORM K) : IKOutcome K Robot :=
  ⟨RK_SOLVER_NOT_READY, jointValues, robot⟩

/-- `Robot::selectivelyDampedLeastSquaresIK_linkage`, lines 516-528. -/
def selectivelyDampedLeastSquaresIK_linkage (M : Kinematics K Robot) (robot : Robot)
    (linkageName : String) (jointValues : VectorXd K) (target finalTF : TRANSFORM K) :
    IKOutcome K Robot :=
  let jointIndices := (linkage M robot linkageName).joints_.map Joint.id
  let linkageFinalTF := (linkage M robot linkageName).tool_respectToFixed.mul finalTF
  selectivelyDampedLeastSquaresIK_chain robot jointIndices jointValues target linkageFinalTF

/-- `Robot::pseudoinverseIK_linkage`, lines 624-636. -/
def pseudoinverseIK_linkage (M : Kinematics K Robot) (robot : Robot)
    (linkageName : String) (jointValues : VectorXd K) (target finalTF : TRANSFORM K) :
    IKOutcome K Robot :=
  let jointIndices := (linkage M robot linkageName).joints_.map Joint.id
  let linkageFinalTF := (linkage M robot linkageName).tool_respectToFixed.mul finalTF
  pseudoinverseIK_chain robot jointIndices jointValues target linkageFinalTF

/-- `Robot::jacobianTransposeIK_linkage`, lines 721-733. -/
def jacobianTransposeIK_linkage (M : Kinematics K Robot) (robot : Robot)
    (linkageName : String) (jointValues : VectorXd K) (target finalTF : TRANSFORM K) :
    IKOutcome K Robot :=
  let jointIndices := (linkage M robot linkageName).joints_.map Joint.id
  let linkageFinalTF := (linkage M robot linkageName).tool_respectToFixed.mul finalTF
  jacobianTransposeIK_chain robot jointIndices jointValues target linkageFinalTF

end Defs

/-! ## Rotation vectors -/

/-- `a` is an angle-axis form of the rotation matrix `R` with angle in
`[0, π]`: the axis is a unit vector and `R` is given by Rodrigues' formula
`cos θ · I + sin θ · [k]ₓ + (1 - cos θ) · k kᵀ`. -/
def IsAngleAxisOf (R : Matrix (Fin 3) (Fin 3) ℝ) (a : AngleAxisd ℝ) : Prop :=
  0 ≤ a.angle ∧ a.angle ≤ Real.pi ∧ a.axis ⬝ᵥ a.axis = 1
  ∧ R = Real.cos a.angle • (1 : Matrix (Fin 3) (Fin 3) ℝ)
        + Real.sin a.angle • crossMatrix a.axis
        + (1 - Real.cos a.angle) • Matrix.vecMulVec a.axis a.axis

/-- `v` is a rotation vector (axis · angle, angle in `[0, π]`) of `R`. -/
def IsRotationVectorOf (R : Matrix (Fin 3) (Fin 3) ℝ) (v : Fin 3 → ℝ) : Prop :=
  ∃ a : AngleAxisd ℝ, IsAngleAxisOf R a ∧ v = a.angle • a.axis

/-! ## A concrete robot: two prismatic joints

One linkage `arm` with the joints `joint_0` (id 0, axis x) and `joint_1`
(id 1, unit axis `(3612/3613, 85/3613, 0)`), both prismatic, without limits
and with identity local frames, and a tool at `(0, 0, 1/10)`.  Every frame of
this robot has the identity rotation. -/

/-- The axis of joint `i` of the two-joint robot. -/
def sliderAxis : Nat → TRANSLATION ℚ
  | 0 => ![1, 0, 0]
  | _ => ![3612 / 3613, 85 / 3613, 0]

/-- The effect of `joint(i).value(x)` on the pair of joint values. -/
def sliderSet (r : ℚ × ℚ) (ix : Nat × ℚ) : ℚ × ℚ :=
  if ix.1 = 0 then (ix.2, r.2) else if ix.1 = 1 then (r.1, ix.2) else r

/-- An exact linear solver: Cramer's rule, `A⁻¹ b = (det A)⁻¹ • adj(A) b`. -/
def cramerSolve {K : Type} [LinearOrderedField K] (A : Matrix6d K) (b : Vector6d K) :
    Vector6d K :=
  (A.det)⁻¹ • (A.adjugate *ᵥ b)

/-- The two-joint prismatic robot; its state is the pair of joint values.
`linkageExtra` registers further linkages by name. -/
def slider (linkageExtra : String → Option (Linkage ℚ)) : Kinematics ℚ (ℚ × ℚ) where
  jointNameToIndex_ := fun _ n =>
    if n = "joint_0" then some 0 else if n = "joint_1" then some 1 else none
  linkageByName := fun _ n =>
    if n = "arm" then some ⟨"arm", [⟨0⟩, ⟨1⟩], ⟨1, ![0, 0, 1 / 10]⟩⟩ else linkageExtra n
  values := fun r idx q => (List.zip idx q).foldl sliderSet r
  respectToRobot := fun r i =>
    if i = 0 then ⟨1, r.1 • sliderAxis 0⟩ else ⟨1, r.1 • sliderAxis 0 + r.2 • sliderAxis 1⟩
  jacobian := fun _ idx _ =>
    idx.map (fun i => ![sliderAxis i 0, sliderAxis i 1, sliderAxis i 2, 0, 0, 0])
  angleAxis := fun _ => ⟨0, ![1, 0, 0]⟩
  solve := cramerSolve

/-- The two-joint robot with the single linkage `arm`. -/
def sliderArm : Kinematics ℚ (ℚ × ℚ) := slider (fun _ => none)

/-- The two-joint robot with a second linkage registered under the name
"invalid", holding `joint_0`. -/
def sliderInvalid : Kinematics ℚ (ℚ × ℚ) :=
  slider (fun n => if n = "invalid" then some ⟨"invalid", [⟨0⟩], TRANSFORM.Identity⟩ else none)

/-- A pure translation. -/
def translate (x y z : ℚ) : TRANSFORM ℚ := ⟨1, ![x, y, z]⟩

/-- The target at `T` times the difference of the two joint axes. -/
def sliderTarget (T : ℚ) : TRANSFORM ℚ := translate (T / 3613) (-(85 * T) / 3613) 0

/-- The loop variables of a run on both joints towards `sliderTarget T`
when the joint values are `(T - k, -(T - k))`: the error is then `k` times the
difference of the two axes. -/
def sliderState (T k : ℚ) (j : Nat) : DlsState ℚ (ℚ × ℚ) :=
  ⟨(T - k, -(T - k)), [T - k, -(T - k)], ![k / 3613, -(85 * k) / 3613, 0, 0, 0, 0], j⟩

/-- The loop variables of a run on `joint_0` alone, with target and tool
offset on the x axis, when the value of the joint is `c - k`, where `c` is the
value at which the end effector is at the target: the error is `k` along x. -/
def sliderState0 (c k : ℚ) (j : Nat) : DlsState ℚ (ℚ × ℚ) :=
  ⟨(c - k, 0), [c - k], ![k, 0, 0, 0, 0, 0], j⟩

/-! ## Mass and centre of mass (Solvers.cpp lines 114-357)

The classes `Robot`, `Linkage` and the joints, tools and root link are
declared outside the sources at hand.  What the mass and centre-of-mass
functions of Solvers.cpp read from them is collected in `Link`,
`LinkageLinks` and `RobotLinks`: a snapshot of the robot at the time of the
call.  A loop `for(i = a; i < b; i++) acc += f(i)` that starts from zero is the
sum of `f` over `List.range' a (b - a)`. -/

/-- The values of `FrameType` that Solvers.cpp names (the enum is declared in
Frame.h). -/
inductive FrameType where
  | WORLD
  | ROBOT
  | LINKAGE
  | JOINT
  deriving DecidableEq, Repr

/-- What is read from a body (a joint, a tool or the root link): `mass()`,
`com()` and `centerOfMass(withRespectTo)`.  The last is a method whose body is
not in Solvers.cpp; it is kept as the table of its values. -/
structure Link (K : Type) where
  mass : K
  com : TRANSLATION K
  centerOfMass : FrameType → TRANSLATION K

/-- What is read from a `Linkage`: `nJoints()`, `joint(i)` and `tool()`. -/
structure LinkageLinks (K : Type) where
  nJoints : Nat
  joint : Nat → Link K
  tool : Link K

/-- What is read from a `Robot`: `nLinkages()`, `linkage(i)`, `joint(i)` (the
global joint index), `rootLink` and `respectToWorld()`. -/
structure RobotLinks (K : Type) where
  nLinkages : Nat
  linkage : Nat → LinkageLinks K
  joint : Nat → Link K
  rootLink : Link K
  respectToWorld : TRANSFORM K

section MassDefs

variable {K : Type} [LinearOrderedField K]

/-- An isometry applied to a point, `T * v`. -/
def TRANSFORM.apply (a : TRANSFORM K) (v : TRANSLATION K) : TRANSLATION K :=
  a.rotation *ᵥ v + a.translation

/-- The quotient `com/mass` of a vector by a `double`.  With `mass` zero the
C++ yields a vector of NaN or infinite components; that outcome is `none`. -/
def vdiv (com : TRANSLATION K) (mass : K) : Option (TRANSLATION K) :=
  if mass = 0 then none else some (mass⁻¹ • com)

/-- `Linkage::mass()`, lines 336-345. -/
def Linkage_mass (L : LinkageLinks K) : K :=
  ((List.range' 0 L.nJoints).map (fun i => (L.joint i).mass)).sum + L.tool.mass

/-- `Linkage::mass(const vector<size_t>&, bool)`, lines 347-357. -/
def Linkage_mass_indices (L : LinkageLinks K) (indices : List Nat) (includeTool : Bool) : K :=
  let result := (indices.map (fun i => (L.joint i).mass)).sum
  if includeTool then result + L.tool.mass else result

/-- `Linkage::centerOfMass(FrameType)`, lines 245-254. -/
def Linkage_centerOfMass (L : LinkageLinks K) (withRespectTo : FrameType) : TRANSLATION K :=
  ((List.range' 0 L.nJoints).map (fun i => (L.joint i).centerOfMass withRespectTo)).sum
    + L.tool.centerOfMass withRespectTo

/-- `Linkage::centerOfMass(const vector<size_t>&, bool, FrameType)`, lines
256-269. -/
def Linkage_centerOfMass_indices (L : LinkageLinks K) (indices : List Nat)
    (includeTool : Bool) (withRespectTo : FrameType) : Option (TRANSLATION K) :=
  let com := (indices.map (fun i => (L.joint i).centerOfMass withRespectTo)).sum
  let com := if includeTool then com + L.tool.centerOfMass withRespectTo else com
  vdiv com (Linkage_mass_indices L indices includeTool)

/-- `Linkage::centerOfMass(size_t fromJoint, size_t toJoint, FrameType)`,
lines 295-316.  The second loop is `for(int i=toJoint; i<=toJoint; i++)`. -/
def Linkage_centerOfMass_fromTo (L : LinkageLinks K) (fromJoint toJoint : Nat)
    (withRespectTo : FrameType) : TRANSLATION K :=
  if fromJoint ≥ L.nJoints ∨ toJoint ≥ L.nJoints then
    0
  else if fromJoint ≤ toJoint then
    ((List.range' fromJoint (toJoint + 1 - fromJoint)).map
      (fun i => (L.joint i).centerOfMass withRespectTo)).sum
  else if toJoint < fromJoint then
    ((List.range' toJoint (toJoint + 1 - toJoint)).map
      (fun i => (L.joint i).centerOfMass withRespectTo)).sum
  else
    0

/-- `Robot::mass()`, lines 235-243. -/
def Robot_mass (r : RobotLinks K) : K :=
  ((List.range' 0 r.nLinkages).map (fun i => Linkage_mass (r.linkage i))).sum
    + r.rootLink.mass

/-- `Robot::mass(const vector<size_t>&, FrameType)`, lines 186-209. -/
def Robot_mass_indices (r : RobotLinks K) (indices : List Nat) (typeOfIndex : FrameType) :
    K :=
  if typeOfIndex = FrameType.JOINT then
    (indices.map (fun i => (r.joint i).mass)).sum + r.rootLink.mass
  else if typeOfIndex = FrameType.LINKAGE then
    (indices.map (fun i => Linkage_mass (r.linkage i))).sum + r.rootLink.mass
  else
    0

/-- `Robot::centerOfMass(FrameType)`, lines 114-135.  The last branch prints
an error and falls through to the division. -/
def Robot_centerOfMass (r : RobotLinks K) (withRespectTo : FrameType) :
    Option (TRANSLATION K) :=
  let com :=
    ((List.range' 0 r.nLinkages).map
      (fun i => Linkage_centerOfMass (r.linkage i) withRespectTo)).sum
  let com :=
    if withRespectTo = FrameType.WORLD then
      com + r.respectToWorld.apply r.rootLink.com
    else if withRespectTo = FrameType.ROBOT then
      com + r.rootLink.com
    else
      com
  vdiv com (Robot_mass r)

/-- `Robot::centerOfMass(const vector<size_t>&, FrameType, FrameType)`, lines
137-160. -/
def Robot_centerOfMass_indices (r : RobotLinks K) (indices : List Nat)
    (typeOfIndex withRespectTo : FrameType) : Option (TRANSLATION K) :=
  if typeOfIndex = FrameType.JOINT then
    vdiv (indices.map (fun i => (r.joint i).centerOfMass withRespectTo)).sum
      (Robot_mass_indices r indices typeOfIndex)
  else if typeOfIndex = FrameType.LINKAGE then
    vdiv (indices.map (fun i => Linkage_centerOfMass (r.linkage i) withRespectTo)).sum
      (Robot_mass_indices r indices typeOfIndex)
  else
    some 0

/-- The centre of mass as the spec words it (section 4.6):
`(Σ mᵢ · cᵢ) / Σ mᵢ` over every joint, every linkage tool and the base link,
the denominator being `Robot::mass()`.  The terms `mᵢ · cᵢ` of the joints and
tools are the contributions `centerOfMass(reference)` that the code sums; the
term of the base link is its mass times its COM in the reference frame. -/
def Robot_centerOfMass_weighted (r : RobotLinks K) (withRespectTo : FrameType) :
    Option (TRANSLATION K) :=
  let bodies :=
    ((List.range' 0 r.nLinkages).map
      (fun i => Linkage_centerOfMass (r.linkage i) withRespectTo)).sum
  let base :=
    if withRespectTo = FrameType.WORLD then
      r.respectToWorld.apply r.rootLink.com
    else
      r.rootLink.com
  vdiv (bodies + r.rootLink.mass • base) (Robot_mass r)

end MassDefs

/-! ### Concrete bodies -/

/-- A body of mass `m` whose contribution in every frame is `m • c`. -/
def pointLink (m : ℚ) (c : TRANSLATION ℚ) : Link ℚ := ⟨m, c, fun _ => m • c⟩

/-- A linkage of two joints, of masses 1 and 2 with COM at `(1, 0, 0)` and
`(0, 1, 0)`, and a massless tool. -/
def twoJointLinks : LinkageLinks ℚ where
  nJoints := 2
  joint := fun i => if i = 0 then pointLink 1 ![1, 0, 0] else pointLink 2 ![0, 1, 0]
  tool := pointLink 0 0

/-- A robot without linkages: only a root link of mass `m` with COM `c`, the
base frame being the world frame. -/
def baseOnlyRobot (m : ℚ) (c : TRANSLATION ℚ) : RobotLinks ℚ where
  nLinkages := 0
  linkage := fun _ => twoJointLinks
  joint := fun _ => pointLink 0 0
  rootLink := pointLink m c
  respectToWorld := TRANSFORM.Identity

/-- A robot with the linkage `twoJointLinks` and a root link of mass 1 at the
origin. -/
def twoJointRobot : RobotLinks ℚ where
  nLinkages := 1
  linkage := fun _ => twoJointLinks
  joint := twoJointLinks.joint
  rootLink := pointLink 1 0
  respectToWorld := TRANSFORM.Identity

/-! ## Ordering of the linkages (Robot.h lines 98-106) -/

/-- The struct `indexParentIndexPair` of Robot.h: a linkage index `I` and the
index `pI` of its parent linkage, -1 for the base. -/
structure indexParentIndexPair where
  I : Nat
  pI : Int
  deriving DecidableEq, Repr

/-- The member `indexParentIndexPair::operator<`: `return pI < rhs.pI;`. -/
def indexParentIndexPair.lt (a rhs : indexParentIndexPair) : Bool := decide (a.pI < rhs.pI)

/-- Entry `i` of the parent-index vector; -1 outside of it. -/
def parentOf (parentIndices : List Int) (i : Nat) : Int := parentIndices.getD i (-1)

/-- Modelled from the spec: the pairs are formed in `Robot::initialize`
(Robot.cpp, not among the sources); spec section 4.4, step 1: "Form pairs
(i, parent_indices[i])". -/
def pairsOf (parentIndices : List Int) : List indexParentIndexPair :=
  (List.range parentIndices.length).map (fun i => ⟨i, parentOf parentIndices i⟩)

/-- Modelled from the spec: the sort is called in `Robot::initialize`
(Robot.cpp, not among the sources); spec section 4.4, step 2: "Sort ascending
by parent index; ties preserve input order", that is a stable sort with
`operator<`: `a` stays before `b` unless `b < a`. -/
def stableSortPairs (pairs : List indexParentIndexPair) : List indexParentIndexPair :=
  pairs.insertionSort (fun a b => b.lt a = false)

/-- Following the parent indices from `p` reaches the base, -1, within `fuel`
steps. -/
def reachesBase (parentIndices : List Int) : Nat → Int → Bool
  | 0, p => decide (p = -1)
  | fuel + 1, p =>
    if p = -1 then true else reachesBase parentIndices fuel (parentOf parentIndices p.toNat)

/-- The parent-index vector describes a tree rooted at the base: each entry is
-1 or the index of another linkage, and from every linkage the parent links
lead to the base (no cycles). -/
def IsRootedTree (parentIndices : List Int) : Prop :=
  ∀ i, i < parentIndices.length →
    (parentOf parentIndices i = -1
      ∨ (0 ≤ parentOf parentIndices i ∧ parentOf parentIndices i < parentIndices.length
          ∧ parentOf parentIndices i ≠ i))
    ∧ reachesBase parentIndices parentIndices.length (parentOf parentIndices i) = true

/-- In the order `out`, every linkage that has a parent linkage stands after
that parent. -/
def AppearsAfterParent (out : List indexParentIndexPair) : Prop :=
  ∀ j : Fin out.length, 0 ≤ out[j].pI →
    ∃ i : Fin out.length, i < j ∧ (out[i].I : Int) = out[j].pI

/-- In the order `out`, the linkages attached to the base (parent index -1)
stand before all others. -/
def BaseRootedFirst (out : List indexParentIndexPair) : Prop :=
  ∀ i j : Fin out.length, out[i].pI = -1 → out[j].pI ≠ -1 → i < j

/-! ## Pseudoinverse (Solvers.cpp lines 51-111) -/

/-- What `pinv` reads from the Eigen `JacobiSVD<MatrixXd>` of an m×n matrix
computed with `ComputeFullU | ComputeThinV`: `matrixU()` (m×m),
`singularValues()` (min m n entries) and `matrixV()` (n × min m n). -/
structure JacobiSVD (K : Type) (m n : Nat) where
  matrixU : Matrix (Fin m) (Fin m) K
  singularValues : Fin (min m n) → K
  matrixV : Matrix (Fin n) (Fin (min m n)) K

section PinvDefs

variable {K : Type} [LinearOrderedField K]

/-- `a.rows()` of the default-constructed `MatrixXd a;` of line 59: an empty
matrix. -/
def MatrixXd_default_rows : Nat := 0

/-- `a.cols()` of the default-constructed `MatrixXd a;` of line 59. -/
def MatrixXd_default_cols : Nat := 0

/-- The test of line 60, `a.rows() < a.cols()`, made on `a` before anything is
assigned to it; its outcome is the value of `flip`. -/
def pinv_flip : Bool := decide (MatrixXd_default_rows < MatrixXd_default_cols)

/-- The test as the spec asks for it: on the dimensions of the input `b`. -/
def pinv_flip_on_input (rows cols : Nat) : Bool := decide (rows < cols)

/-- Lines 85-92: the entry of `vPseudoInvertedSingular` for a singular value,
0 when `fabs(σ) <= 1e-10` and `1./σ` otherwise. -/
def pseudoInvertedSingular (σ : K) : K := if |σ| ≤ 1 / 10 ^ 10 then 0 else 1 / σ

/-- Lines 73-103: from the decomposition to `a_pinv`.  `mAdjointU` is the
block of the first `vSingular.rows()` rows of `matrixU().adjoint()`. -/
def pinv_fromSVD {m n : Nat} (svdA : JacobiSVD K m n) : Matrix (Fin n) (Fin m) K :=
  let vPseudoInvertedSingular : Fin (min m n) → K :=
    fun iRow => pseudoInvertedSingular (svdA.singularValues iRow)
  let mAdjointU : Matrix (Fin (min m n)) (Fin m) K :=
    (svdA.matrixUᵀ).submatrix (Fin.castLE (Nat.min_le_left m n)) id
  (svdA.matrixV * Matrix.diagonal vPseudoInvertedSingular) * mAdjointU

/-- The function `pinv(b, a_pinv)`, lines 51-111, returning `a_pinv`.  `svd`
is `JacobiSVD::compute`. -/
def pinv (svd : (m n : Nat) → Matrix (Fin m) (Fin n) K → JacobiSVD K m n) {m n : Nat}
    (b : Matrix (Fin m) (Fin n) K) : Matrix (Fin n) (Fin m) K :=
  if pinv_flip then
    (pinv_fromSVD (svd n m bᵀ))ᵀ
  else
    pinv_fromSVD (svd m n b)

/-- The decomposition `s` is a singular value decomposition of `A`: the
columns of `matrixU` and of `matrixV` are orthonormal, the singular values are
not negative, and `A = U · Σ · Vᵀ` with the first `min m n` columns of `U`. -/
def IsSVD {m n : Nat} (A : Matrix (Fin m) (Fin n) K) (s : JacobiSVD K m n) : Prop :=
  s.matrixUᵀ * s.matrixU = 1 ∧ s.matrixVᵀ * s.matrixV = 1
  ∧ (∀ i, 0 ≤ s.singularValues i)
  ∧ A = s.matrixU.submatrix id (Fin.castLE (Nat.min_le_left m n))
          * Matrix.diagonal s.singularValues * s.matrixVᵀ

/-- The four Moore–Penrose conditions for `X` to be the pseudoinverse of `A`. -/
def IsMoorePenrose {m n : Nat} (A : Matrix (Fin m) (Fin n) K) (X : Matrix (Fin n) (Fin m) K) :
    Prop :=
  A * X * A = A ∧ X * A * X = X ∧ (A * X)ᵀ = A * X ∧ (X * A)ᵀ = X * A

end PinvDefs

/-- A decomposition routine that is right on square diagonal matrices with
non-negative entries: `U = 1`, the singular values are the diagonal entries,
`V` is the leading block of the identity. -/
def diagonalSVD (m n : Nat) (A : Matrix (Fin m) (Fin n) ℚ) : JacobiSVD ℚ m n where
  matrixU := 1
  singularValues := fun i =>
    A (Fin.castLE (Nat.min_le_left m n) i) (Fin.castLE (Nat.min_le_right m n) i)
  matrixV := (1 : Matrix (Fin n) (Fin n) ℚ).submatrix id (Fin.castLE (Nat.min_le_right m n))

/-! ## Name-based front ends of the disabled solvers, `clampMaxAbs`, and the
range overload of `Linkage::centerOfMass` -/

section MoreDefs

variable {K : Type} [LinearOrderedField K] {Robot : Type}

/-- The loop written out at lines 501-510, 609-618 and 706-715: the index
vector is filled name by name from `jointNameToIndex_`; `none` is the
`return RK_INVALID_JOINT;` taken at the first name that is not found. -/
def lookupJointNames (find : String → Option Nat) : List String → Option (List Nat)
  | [] => some []
  | n :: ns =>
    match find n with
    | none => none
    | some j => (lookupJointNames find ns).map (fun is => j :: is)

/-- `Robot::selectivelyDampedLeastSquaresIK_chain(const vector<string>&, ...)`,
lines 497-513; the call on line 512 passes three arguments. -/
def selectivelyDampedLeastSquaresIK_chain_names (M : Kinematics K Robot) (robot : Robot)
    (jointNames : List String) (jointValues : VectorXd K) (target _finalTF : TRANSFORM K) :
    IKOutcome K Robot :=
  match lookupJointNames (M.jointNameToIndex_ robot) jointNames with
  | none => ⟨RK_INVALID_JOINT, jointValues, robot⟩
  | some jointIndices =>
    selectivelyDampedLeastSquaresIK_chain robot jointIndices jointValues target
      TRANSFORM.Identity

/-- `Robot::pseudoinverseIK_chain(const vector<string>&, ...)`, lines 605-621;
the call on line 620 passes three arguments. -/
def pseudoinverseIK_chain_names (M : Kinematics K Robot) (robot : Robot)
    (jointNames : List String) (jointValues : VectorXd K) (target _finalTF : TRANSFORM K) :
    IKOutcome K Robot :=
  match lookupJointNames (M.jointNameToIndex_ robot) jointNames with
  | none => ⟨RK_INVALID_JOINT, jointValues, robot⟩
  | some jointIndices =>
    pseudoinverseIK_chain robot jointIndices jointValues target TRANSFORM.Identity

/-- `Robot::jacobianTransposeIK_chain(const vector<string>&, ...)`, lines
702-718; the call on line 717 passes three arguments. -/
def jacobianTransposeIK_chain_names (M : Kinematics K Robot) (robot : Robot)
    (jointNames : List String) (jointValues : VectorXd K) (target _finalTF : TRANSFORM K) :
    IKOutcome K Robot :=
  match lookupJointNames (M.jointNameToIndex_ robot) jointNames with
  | none => ⟨RK_INVALID_JOINT, jointValues, robot⟩
  | some jointIndices =>
    jacobianTransposeIK_chain robot jointIndices jointValues target TRANSFORM.Identity

/-- The loop of lines 36-41 of `clampMaxAbs`: `max` starts at 0 and moves to
`i` whenever `v[i] > v[max]`.  An index outside `v` reads as 0 here; the C++
reads `v[0]` of an empty vector, which is undefined. -/
def clampMaxAbs_max (v : VectorXd K) : Nat :=
  (List.range v.length).foldl (fun max i => if v.getD i 0 > v.getD max 0 then i else max) 0

/-- `clampMaxAbs(VectorXd& v, double clamp)`, lines 34-45, returning the new
`v`: `if(v[max]>clamp) v *= clamp/v[max];`.  The result is `none` when the
factor `clamp/v[max]` is a division by zero (`v[max] = 0 > clamp`), where the
C++ leaves infinite or NaN entries in `v`. -/
def clampMaxAbs (v : VectorXd K) (clamp : K) : Option (VectorXd K) :=
  if v.getD (clampMaxAbs_max v) 0 > clamp then
    if v.getD (clampMaxAbs_max v) 0 = 0 then none
    else some (v.map (fun x => x * (clamp / v.getD (clampMaxAbs_max v) 0)))
  else
    some v

/-- `Linkage::centerOfMass(size_t fromJoint, bool includeTool, FrameType)`,
lines 271-288. -/
def Linkage_centerOfMass_fromJoint (L : LinkageLinks K) (fromJoint : Nat)
    (includeTool : Bool) (withRespectTo : FrameType) : TRANSLATION K :=
  if fromJoint < L.nJoints then
    let com :=
      ((List.range' fromJoint (L.nJoints - fromJoint)).map
        (fun i => (L.joint i).centerOfMass withRespectTo)).sum
    if includeTool then com + L.tool.centerOfMass withRespectTo else com
  else
    0

/-- The arguments of the `joint(i)` calls made by
`Linkage::centerOfMass(size_t fromJoint, bool, FrameType)`, lines 273-277, in
the order the loop makes them. -/
def Linkage_centerOfMass_fromJoint_accesses (L : LinkageLinks K) (fromJoint : Nat) : List Nat :=
  if fromJoint < L.nJoints then List.range' fromJoint (L.nJoints - fromJoint) else []

/-- The arguments of the `joint(i)` calls made by
`Linkage::centerOfMass(size_t fromJoint, size_t toJoint, FrameType)`, lines
297-314, in the order the loops make them. -/
def Linkage_centerOfMass_fromTo_accesses (L : LinkageLinks K) (fromJoint toJoint : Nat) :
    List Nat :=
  if fromJoint ≥ L.nJoints ∨ toJoint ≥ L.nJoints then []
  else if fromJoint ≤ toJoint then List.range' fromJoint (toJoint + 1 - fromJoint)
  else if toJoint < fromJoint then List.range' toJoint (toJoint + 1 - toJoint)
  else []

end MoreDefs

/-- A linkage of two joints whose second joint is massless: masses 1 and 0,
COM at `(1, 0, 0)` and `(0, 1, 0)`, and a massless tool. -/
def masslessDistalLinks : LinkageLinks ℚ where
  nJoints := 2
  joint := fun i => if i = 0 then pointLink 1 ![1, 0, 0] else pointLink 0 ![0, 1, 0]
  tool := pointLink 0 0

/-- A linkage of one joint of mass 1 at `(1, 0, 0)` carrying a tool of mass 2
at `(0, 1, 0)`. -/
def heavyToolLinks : LinkageLinks ℚ where
  nJoints := 1
  joint := fun _ => pointLink 1 ![1, 0, 0]
  tool := pointLink 2 ![0, 1, 0]

/-- A robot with two linkages, `twoJointLinks` and `masslessDistalLinks`, and
a root link of mass 1 at the origin. -/
def twoLinkageRobot : RobotLinks ℚ where
  nLinkages := 2
  linkage := fun i => if i = 0 then twoJointLinks else masslessDistalLinks
  joint := twoJointLinks.joint
  rootLink := pointLink 1 0
  respectToWorld := TRANSFORM.Identity

/-! ## Name and linkage resolution -/

theorem jointNamesToIndices_invalid (find : String → Option Nat) (jointNames : List String)
    (h : ∃ n ∈ jointNames, find n = none) :
    (jointNamesToIndices find jointNames).1 = rk_result_t.RK_INVALID_JOINT := by
  induction jointNames with
  | nil => simp at h
  | cons n ns ih =>
    cases hn : find n with
    | none => simp [jointNamesToIndices, hn]
    | some j =>
      have h2 : ∃ m ∈ ns, find m = none := by
        obtain ⟨m, hm, hmn⟩ := h
        rcases List.mem_cons.mp hm with rfl | hm
        · rw [hn] at hmn; cases hmn
        · exact ⟨m, hm, hmn⟩
      simp [jointNamesToIndices, hn, ih h2]

theorem jointNamesToIndices_solved (find : String → Option Nat) (jointNames : List String)
    (h : ∀ n ∈ jointNames, (find n).isSome) :
    jointNamesToIndices find jointNames
      = (rk_result_t.RK_SOLVED, jointNames.map (fun n => (find n).getD 0)) := by
  induction jointNames with
  | nil => rfl
  | cons n ns ih =>
    have hn := h n (List.mem_cons_self _ _)
    obtain ⟨j, hj⟩ := Option.isSome_iff_exists.mp hn
    have ih2 := ih (fun m hm => h m (List.mem_cons_of_mem _ hm))
    simp [jointNamesToIndices, hj, ih2]

theorem linkage_of_unregistered {K Robot : Type} [LinearOrderedField K]
    (M : Kinematics K Robot) (robot : Robot) (linkageName : String)
    (h : M.linkageByName robot linkageName = none) :
    linkage M robot linkageName = invalidLinkage := by
  simp [linkage, h]

theorem linkage_of_registered {K Robot : Type} [LinearOrderedField K]
    (M : Kinematics K Robot) (robot : Robot) (linkageName : String) (L : Linkage K)
    (h : M.linkageByName robot linkageName = some L) :
    linkage M robot linkageName = L := by
  simp [linkage, h]

/-- C1: when some name of the list is not registered in the robot, the
name-based `dampedLeastSquaresIK_chain` returns `RK_INVALID_JOINT` and leaves
`jointValues` and the robot as they were, for every seed, target and tool
offset. -/
theorem dampedLeastSquaresIK_chain_names_invalid_joint {K Robot : Type} [LinearOrderedField K]
    (M : Kinematics K Robot) (robot : Robot) (jointNames : List String)
    (jointValues : VectorXd K) (target finalTF : TRANSFORM K)
    (h : ∃ n ∈ jointNames, M.jointNameToIndex_ robot n = none) :
    dampedLeastSquaresIK_chain_names M robot jointNames jointValues target finalTF
      = ⟨rk_result_t.RK_INVALID_JOINT, jointValues, robot⟩ := by
  simp [dampedLeastSquaresIK_chain_names, jointNamesToIndices_invalid _ _ h]

theorem dampedLeastSquaresIK_chain_names_invalid_joint_witness :
    (∃ n ∈ ["does_not_exist", "joint_0"], sliderArm.jointNameToIndex_ (0, 0) n = none)
    ∧ dampedLeastSquaresIK_chain_names sliderArm (0, 0) ["does_not_exist", "joint_0"]
        [5, 7] (translate 1 0 0) (translate 0 0 1)
      = ⟨rk_result_t.RK_INVALID_JOINT, [5, 7], (0, 0)⟩ :=
  ⟨⟨"does_not_exist", by simp, by simp [sliderArm, slider]⟩,
   dampedLeastSquaresIK_chain_names_invalid_joint sliderArm (0, 0)
     ["does_not_exist", "joint_0"] [5, 7] (translate 1 0 0) (translate 0 0 1)
     ⟨"does_not_exist", by simp, by simp [sliderArm, slider]⟩⟩

/-- C2: for a linkage name that is not registered in the robot,
`dampedLeastSquaresIK_linkage` returns `RK_INVALID_LINKAGE` and leaves
`jointValues` and the robot as they were, for every seed, target and tool
offset. -/
theorem dampedLeastSquaresIK_linkage_invalid_linkage {K Robot : Type} [LinearOrderedField K]
    (M : Kinematics K Robot) (robot : Robot) (linkageName : String)
    (jointValues : VectorXd K) (target finalTF : TRANSFORM K)
    (h : M.linkageByName robot linkageName = none) :
    dampedLeastSquaresIK_linkage M robot linkageName jointValues target finalTF
      = ⟨rk_result_t.RK_INVALID_LINKAGE, jointValues, robot⟩ := by
  simp [dampedLeastSquaresIK_linkage, linkage_of_unregistered M robot linkageName h,
    invalidLinkage]

theorem dampedLeastSquaresIK_linkage_invalid_linkage_witness :
    sliderArm.linkageByName (0, 0) "leg" = none
    ∧ dampedLeastSquaresIK_linkage sliderArm (0, 0) "leg" [5, 7] (translate 1 0 0)
        (translate 0 0 1)
      = ⟨rk_result_t.RK_INVALID_LINKAGE, [5, 7], (0, 0)⟩ :=
  ⟨by simp [sliderArm, slider],
   dampedLeastSquaresIK_linkage_invalid_linkage sliderArm (0, 0) "leg" [5, 7]
     (translate 1 0 0) (translate 0 0 1) (by simp [sliderArm, slider])⟩

/-- C3: the linkage front ends of the three disabled solvers do not look at
the linkage name: for every name, registered or not, they return
`RK_SOLVER_NOT_READY` (never `RK_INVALID_LINKAGE`), leaving `jointValues` and
the robot as they were. -/
theorem disabled_linkage_solvers_return_not_ready {K Robot : Type} [LinearOrderedField K]
    (M : Kinematics K Robot) (robot : Robot) (linkageName : String)
    (jointValues : VectorXd K) (target finalTF : TRANSFORM K) :
    selectivelyDampedLeastSquaresIK_linkage M robot linkageName jointValues target finalTF
        = ⟨rk_result_t.RK_SOLVER_NOT_READY, jointValues, robot⟩
    ∧ pseudoinverseIK_linkage M robot linkageName jointValues target finalTF
        = ⟨rk_result_t.RK_SOLVER_NOT_READY, jointValues, robot⟩
    ∧ jacobianTransposeIK_linkage M robot linkageName jointValues target finalTF
        = ⟨rk_result_t.RK_SOLVER_NOT_READY, jointValues, robot⟩ :=
  ⟨rfl, rfl, rfl⟩

theorem TRANSFORM.mul_Identity {K : Type} [LinearOrderedField K] (a : TRANSFORM K) :
    a.mul TRANSFORM.Identity = a := by
  cases a
  simp [TRANSFORM.mul, TRANSFORM.Identity]

theorem dampedLeastSquaresIK_chain_result {K Robot : Type} [LinearOrderedField K]
    (M : Kinematics K Robot) (robot : Robot) (jointIndices : List Nat)
    (jointValues : VectorXd K) (target finalTF : TRANSFORM K) :
    (dampedLeastSquaresIK_chain M robot jointIndices jointValues target finalTF).result
        = rk_result_t.RK_SOLVED
    ∨ (dampedLeastSquaresIK_chain M robot jointIndices jointValues target finalTF).result
        = rk_result_t.RK_DIVERGED := by
  unfold dampedLeastSquaresIK_chain
  by_cases h : (dlsFinal M robot jointIndices jointValues target finalTF).iterations < 100
  · left; simp [h]
  · right; simp [h]

/-- C4, as the code has it: for a registered linkage `L` whose name is not
"invalid", `dampedLeastSquaresIK_linkage` gives the same result code, final
`jointValues` and robot as the index-based `dampedLeastSquaresIK_chain` on the
ids of the joints of `L` in chain order with the tool offset
`L.tool.respectToFixed * finalTF`; with the identity as `finalTF` that offset
is `L.tool.respectToFixed`. -/
theorem dampedLeastSquaresIK_linkage_eq_chain {K Robot : Type} [LinearOrderedField K]
    (M : Kinematics K Robot) (robot : Robot) (linkageName : String) (L : Linkage K)
    (jointValues : VectorXd K) (target finalTF : TRANSFORM K)
    (hreg : M.linkageByName robot linkageName = some L) (hname : L.name ≠ "invalid") :
    dampedLeastSquaresIK_linkage M robot linkageName jointValues target finalTF
        = dampedLeastSquaresIK_chain M robot (L.joints_.map Joint.id) jointValues target
            (L.tool_respectToFixed.mul finalTF)
    ∧ dampedLeastSquaresIK_linkage M robot linkageName jointValues target TRANSFORM.Identity
        = dampedLeastSquaresIK_chain M robot (L.joints_.map Joint.id) jointValues target
            L.tool_respectToFixed := by
  have hl := linkage_of_registered M robot linkageName L hreg
  constructor
  · simp [dampedLeastSquaresIK_linkage, hl, hname]
  · simp [dampedLeastSquaresIK_linkage, hl, hname, TRANSFORM.mul_Identity]

theorem dampedLeastSquaresIK_linkage_eq_chain_witness :
    sliderArm.linkageByName (0, 0) "arm" = some ⟨"arm", [⟨0⟩, ⟨1⟩], ⟨1, ![0, 0, 1 / 10]⟩⟩
    ∧ ("arm" : String) ≠ "invalid"
    ∧ dampedLeastSquaresIK_linkage sliderArm (0, 0) "arm" [0, 0] (translate 1 0 0)
          (translate 0 1 0)
        = dampedLeastSquaresIK_chain sliderArm (0, 0) [0, 1] [0, 0] (translate 1 0 0)
            ((⟨1, ![0, 0, 1 / 10]⟩ : TRANSFORM ℚ).mul (translate 0 1 0)) :=
  ⟨by simp [sliderArm, slider], by decide,
   (dampedLeastSquaresIK_linkage_eq_chain sliderArm (0, 0) "arm"
     ⟨"arm", [⟨0⟩, ⟨1⟩], ⟨1, ![0, 0, 1 / 10]⟩⟩ [0, 0] (translate 1 0 0) (translate 0 1 0)
     (by simp [sliderArm, slider]) (by decide)).1⟩

/-- C4 fails for a linkage registered under the name "invalid": the linkage
call returns `RK_INVALID_LINKAGE`, which the index-based chain call on the
joints of that linkage never returns. -/
theorem dampedLeastSquaresIK_linkage_ne_chain_of_name_invalid :
    sliderInvalid.linkageByName (0, 0) "invalid"
        = some ⟨"invalid", [⟨0⟩], TRANSFORM.Identity⟩
    ∧ (dampedLeastSquaresIK_linkage sliderInvalid (0, 0) "invalid" [0] (translate 1 0 0)
          TRANSFORM.Identity).result
        ≠ (dampedLeastSquaresIK_chain sliderInvalid (0, 0) [0] [0] (translate 1 0 0)
            (TRANSFORM.Identity.mul TRANSFORM.Identity)).result := by
  constructor
  · simp [sliderInvalid, slider]
  · have hl : (dampedLeastSquaresIK_linkage sliderInvalid (0, 0) "invalid" [0]
        (translate 1 0 0) TRANSFORM.Identity).result = rk_result_t.RK_INVALID_LINKAGE := by
      simp [dampedLeastSquaresIK_linkage, linkage, sliderInvalid, slider]
    rw [hl]
    rcases dampedLeastSquaresIK_chain_result sliderInvalid (0, 0) [0] [0] (translate 1 0 0)
      (TRANSFORM.Identity.mul TRANSFORM.Identity) with h | h <;> rw [h] <;> decide

/-! ## The do-while loop -/

section Loop

variable {K Robot : Type} [LinearOrderedField K]

theorem dlsBody_iterations (M : Kinematics K Robot) (jointIndices : List Nat)
    (target finalTF : TRANSFORM K) (damp : K) (s : DlsState K Robot) :
    (dlsBody M jointIndices target finalTF damp s).iterations = s.iterations + 1 := rfl

theorem dlsBody_jointValues (M : Kinematics K Robot) (jointIndices : List Nat)
    (target finalTF : TRANSFORM K) (damp : K) (s : DlsState K Robot) :
    (dlsBody M jointIndices target finalTF damp s).jointValues
      = vadd s.jointValues (dlsIncrement M jointIndices finalTF damp s) := rfl

theorem dlsBody_err (M : Kinematics K Robot) (jointIndices : List Nat)
    (target finalTF : TRANSFORM K) (damp : K) (s : DlsState K Robot) :
    (dlsBody M jointIndices target finalTF damp s).err
      = poseError M.angleAxis target
          (endPose M (dlsBody M jointIndices target finalTF damp s).robot jointIndices
            finalTF) := rfl

theorem dlsBody_iterate_iterations (M : Kinematics K Robot) (jointIndices : List Nat)
    (target finalTF : TRANSFORM K) (damp : K) (n : Nat) (s : DlsState K Robot) :
    ((dlsBody M jointIndices target finalTF damp)^[n] s).iterations = s.iterations + n := by
  induction n generalizing s with
  | zero => rfl
  | succ n ih =>
    rw [Function.iterate_succ_apply, ih, dlsBody_iterations]
    omega

theorem dlsBody_iterate_jointValues (M : Kinematics K Robot) (jointIndices : List Nat)
    (target finalTF : TRANSFORM K) (damp : K) (n : Nat) (s : DlsState K Robot) :
    ((dlsBody M jointIndices target finalTF damp)^[n] s).jointValues
      = ((List.range n).map (fun k => dlsIncrement M jointIndices finalTF damp
            ((dlsBody M jointIndices target finalTF damp)^[k] s))).foldl vadd
          s.jointValues := by
  induction n with
  | zero => rfl
  | succ n ih =>
    rw [Function.iterate_succ_apply', dlsBody_jointValues, ih, List.range_succ,
      List.map_append, List.foldl_append]
    rfl

theorem dlsLoop_unfold (M : Kinematics K Robot) (jointIndices : List Nat)
    (target finalTF : TRANSFORM K) (damp tolerance : K) (maxIterations : Nat)
    (s : DlsState K Robot) :
    dlsLoop M jointIndices target finalTF damp tolerance maxIterations s
      = if tolerance * tolerance
            < squaredNorm (dlsBody M jointIndices target finalTF damp s).err
          ∧ s.iterations + 1 < maxIterations then
          dlsLoop M jointIndices target finalTF damp tolerance maxIterations
            (dlsBody M jointIndices target finalTF damp s)
        else
          dlsBody M jointIndices target finalTF damp s := by
  rw [dlsLoop]
  rfl

/-- The loop leaves with the variables of the first pass after which the
loop condition is false. -/
theorem dlsLoop_eq_iterate (M : Kinematics K Robot) (jointIndices : List Nat)
    (target finalTF : TRANSFORM K) (damp tolerance : K) (maxIterations : Nat) (n : Nat)
    (s : DlsState K Robot)
    (hcont : ∀ i, i < n →
      tolerance * tolerance
          < squaredNorm ((dlsBody M jointIndices target finalTF damp)^[i + 1] s).err
        ∧ s.iterations + (i + 1) < maxIterations)
    (hstop : ¬ (tolerance * tolerance
          < squaredNorm ((dlsBody M jointIndices target finalTF damp)^[n + 1] s).err
        ∧ s.iterations + (n + 1) < maxIterations)) :
    dlsLoop M jointIndices target finalTF damp tolerance maxIterations s
      = (dlsBody M jointIndices target finalTF damp)^[n + 1] s := by
  induction n generalizing s with
  | zero =>
    rw [dlsLoop_unfold]
    simp only [Function.iterate_succ, Function.iterate_zero, Function.comp_apply, id_eq,
      zero_add] at hstop ⊢
    rw [if_neg hstop]
  | succ n ih =>
    rw [dlsLoop_unfold]
    have h0 := hcont 0 (Nat.succ_pos n)
    simp only [Function.iterate_succ, Function.iterate_zero, Function.comp_apply, id_eq,
      zero_add] at h0
    rw [if_pos h0]
    rw [ih (dlsBody M jointIndices target finalTF damp s)]
    · rfl
    · intro i hi
      have h := hcont (i + 1) (Nat.succ_lt_succ hi)
      rw [Function.iterate_succ_apply] at h
      rw [dlsBody_iterations]
      refine ⟨h.1, ?_⟩
      have := h.2
      omega
    · rw [dlsBody_iterations]
      intro h
      apply hstop
      rw [Function.iterate_succ_apply]
      refine ⟨h.1, ?_⟩
      have := h.2
      omega

/-- The loop makes some number `n + 1` of passes: the loop condition held
after each of the first `n` and is false after the last. -/
theorem dlsLoop_spec (M : Kinematics K Robot) (jointIndices : List Nat)
    (target finalTF : TRANSFORM K) (damp tolerance : K) (maxIterations : Nat)
    (s : DlsState K Robot) :
    ∃ n : Nat,
      dlsLoop M jointIndices target finalTF damp tolerance maxIterations s
        = (dlsBody M jointIndices target finalTF damp)^[n + 1] s
      ∧ (∀ i, i < n →
          tolerance * tolerance
              < squaredNorm ((dlsBody M jointIndices target finalTF damp)^[i + 1] s).err
            ∧ s.iterations + (i + 1) < maxIterations)
      ∧ ¬ (tolerance * tolerance
              < squaredNorm ((dlsBody M jointIndices target finalTF damp)^[n + 1] s).err
            ∧ s.iterations + (n + 1) < maxIterations) := by
  generalize hm : maxIterations - s.iterations = m
  induction m using Nat.strong_induction_on generalizing s with
  | _ m ih =>
    by_cases hc : tolerance * tolerance
          < squaredNorm (dlsBody M jointIndices target finalTF damp s).err
        ∧ s.iterations + 1 < maxIterations
    · obtain ⟨n, hn, hcont, hstop⟩ :=
        ih (maxIterations - (dlsBody M jointIndices target finalTF damp s).iterations)
          (by rw [dlsBody_iterations]; omega)
          (dlsBody M jointIndices target finalTF damp s) rfl
      refine ⟨n + 1, ?_, ?_, ?_⟩
      · rw [dlsLoop_unfold, if_pos hc, hn]
        rfl
      · intro i hi
        cases i with
        | zero => simpa using hc
        | succ i =>
          have h := hcont i (by omega)
          rw [dlsBody_iterations] at h
          rw [Function.iterate_succ_apply]
          refine ⟨h.1, ?_⟩
          have := h.2
          omega
      · intro h
        apply hstop
        rw [dlsBody_iterations]
        rw [Function.iterate_succ_apply] at h
        refine ⟨h.1, ?_⟩
        have := h.2
        omega
    · refine ⟨0, ?_, ?_, ?_⟩
      · rw [dlsLoop_unfold, if_neg hc]
        rfl
      · intro i hi
        omega
      · simpa using hc

end Loop

/-! ## Termination and result code of the index-based solver -/

section Chain

variable {K Robot : Type} [LinearOrderedField K]

/-- The loop of the index-based solver: the number `n + 1` of passes is at
most 100, the loop variables on exit are those after `n + 1` passes, the error
was above the tolerance after each earlier pass, and on exit the error is
within the tolerance or 100 passes were made. -/
theorem dlsFinal_spec (M : Kinematics K Robot) (robot : Robot) (jointIndices : List Nat)
    (jointValues : VectorXd K) (target finalTF : TRANSFORM K) :
    ∃ n : Nat, n + 1 ≤ 100
      ∧ dlsFinal M robot jointIndices jointValues target finalTF
          = (dlsBody M jointIndices target finalTF (5 / 100))^[n + 1]
              (dlsInit M robot jointIndices jointValues target finalTF)
      ∧ (dlsFinal M robot jointIndices jointValues target finalTF).iterations = n + 1
      ∧ (∀ i, i < n → (1 / 1000 : K) * (1 / 1000)
            < squaredNorm ((dlsBody M jointIndices target finalTF (5 / 100))^[i + 1]
                (dlsInit M robot jointIndices jointValues target finalTF)).err)
      ∧ (n + 1 < 100 →
          squaredNorm (dlsFinal M robot jointIndices jointValues target finalTF).err
            ≤ (1 / 1000 : K) * (1 / 1000)) := by
  obtain ⟨n, hn, hcont, hstop⟩ := dlsLoop_spec M jointIndices target finalTF (5 / 100)
    (1 / 1000) 100 (dlsInit M robot jointIndices jointValues target finalTF)
  have h0 : (dlsInit M robot jointIndices jointValues target finalTF).iterations = 0 := rfl
  have hle : n + 1 ≤ 100 := by
    cases n with
    | zero => omega
    | succ n =>
      have := (hcont n (Nat.lt_succ_self n)).2
      omega
  refine ⟨n, hle, hn, ?_, fun i hi => (hcont i hi).1, ?_⟩
  · unfold dlsFinal
    rw [hn, dlsBody_iterate_iterations, h0]
    omega
  · intro hlt
    unfold dlsFinal
    rw [hn]
    by_contra hgt
    apply hstop
    refine ⟨lt_of_not_le hgt, ?_⟩
    rw [h0]
    omega

/-- C10: the loop of the index-based `dampedLeastSquaresIK_chain` ends after
at least 1 and at most 100 passes, its variables on exit being those after
exactly `iterations` passes of the body; the result is `RK_DIVERGED` only
after exactly 100 passes; and the returned `jointValues` are the seed with the
increments `delta` of all passes added in turn. -/
theorem dampedLeastSquaresIK_chain_terminates (M : Kinematics K Robot) (robot : Robot)
    (jointIndices : List Nat) (jointValues : VectorXd K) (target finalTF : TRANSFORM K) :
    1 ≤ (dlsFinal M robot jointIndices jointValues target finalTF).iterations
    ∧ (dlsFinal M robot jointIndices jointValues target finalTF).iterations ≤ 100
    ∧ dlsFinal M robot jointIndices jointValues target finalTF
        = (dlsBody M jointIndices target finalTF (5 / 100))^[
            (dlsFinal M robot jointIndices jointValues target finalTF).iterations]
            (dlsInit M robot jointIndices jointValues target finalTF)
    ∧ ((dampedLeastSquaresIK_chain M robot jointIndices jointValues target finalTF).result
          = rk_result_t.RK_DIVERGED →
        (dlsFinal M robot jointIndices jointValues target finalTF).iterations = 100)
    ∧ (dampedLeastSquaresIK_chain M robot jointIndices jointValues target finalTF).jointValues
        = ((List.range
              (dlsFinal M robot jointIndices jointValues target finalTF).iterations).map
            (fun k => dlsIncrement M jointIndices finalTF (5 / 100)
              ((dlsBody M jointIndices target finalTF (5 / 100))^[k]
                (dlsInit M robot jointIndices jointValues target finalTF)))).foldl vadd
          jointValues := by
  obtain ⟨n, hle, hn, hit, -, -⟩ :=
    dlsFinal_spec M robot jointIndices jointValues target finalTF
  have hjv : (dampedLeastSquaresIK_chain M robot jointIndices jointValues target
      finalTF).jointValues
      = (dlsFinal M robot jointIndices jointValues target finalTF).jointValues := by
    unfold dampedLeastSquaresIK_chain
    by_cases h : (dlsFinal M robot jointIndices jointValues target finalTF).iterations < 100
    · simp [h]
    · simp [h]
  refine ⟨by omega, by omega, by rw [hit]; exact hn, ?_, ?_⟩
  · intro hres
    unfold dampedLeastSquaresIK_chain at hres
    by_cases h : (dlsFinal M robot jointIndices jointValues target finalTF).iterations < 100
    · simp [h] at hres
    · omega
  · rw [hjv, hit]
    conv_lhs => rw [hn]
    rw [dlsBody_iterate_jointValues]
    rfl

end Chain

/-! ## The damped system -/

section Damped

variable {K : Type} [LinearOrderedField K]

theorem mulTranspose_cons (c : Vector6d K) (J : Matrix6Xd K) :
    mulTranspose (c :: J) = Matrix.vecMulVec c c + mulTranspose J := by
  simp [mulTranspose]

theorem vecMulVec_self_mulVec (c x : Vector6d K) :
    Matrix.vecMulVec c c *ᵥ x = (c ⬝ᵥ x) • c := by
  ext i
  simp only [Matrix.mulVec, Matrix.vecMulVec_apply, Matrix.dotProduct, Pi.smul_apply,
    smul_eq_mul]
  rw [Finset.sum_mul]
  apply Finset.sum_congr rfl
  intro j _
  ring

theorem dotProduct_mulTranspose_nonneg (J : Matrix6Xd K) (x : Vector6d K) :
    0 ≤ x ⬝ᵥ (mulTranspose J *ᵥ x) := by
  induction J with
  | nil => simp [mulTranspose]
  | cons c J ih =>
    rw [mulTranspose_cons, Matrix.add_mulVec, Matrix.dotProduct_add, vecMulVec_self_mulVec,
      Matrix.dotProduct_smul, smul_eq_mul, Matrix.dotProduct_comm x c]
    exact add_nonneg (mul_self_nonneg _) ih

theorem dampedMatrix_mulVec_injective (damp : K) (hd : damp ≠ 0) (J : Matrix6Xd K) :
    Function.Injective (dampedMatrix damp J).mulVec := by
  have hzero : ∀ x : Vector6d K, dampedMatrix damp J *ᵥ x = 0 → x = 0 := by
    intro x hx
    have h1 : x ⬝ᵥ (dampedMatrix damp J *ᵥ x) = 0 := by rw [hx]; simp
    rw [dampedMatrix, Matrix.add_mulVec, Matrix.dotProduct_add, Matrix.smul_mulVec_assoc,
      Matrix.one_mulVec, Matrix.dotProduct_smul, smul_eq_mul] at h1
    have h2 := dotProduct_mulTranspose_nonneg J x
    have h3 : 0 < damp * damp := mul_self_pos.mpr hd
    have h4 : 0 ≤ x ⬝ᵥ x := Finset.sum_nonneg (fun i _ => mul_self_nonneg (x i))
    have h5 : x ⬝ᵥ x = 0 := by
      by_contra hne
      have h6 : 0 < x ⬝ᵥ x := lt_of_le_of_ne h4 (Ne.symm hne)
      have h7 : 0 < damp * damp * (x ⬝ᵥ x) := mul_pos h3 h6
      linarith
    exact Matrix.dotProduct_self_eq_zero.mp h5
  intro x y hxy
  have h : dampedMatrix damp J *ᵥ (x - y) = 0 := by
    rw [Matrix.mulVec_sub]
    exact sub_eq_zero.mpr hxy
  exact sub_eq_zero.mp (hzero _ h)

theorem dampedMatrix_det_ne_zero (damp : K) (hd : damp ≠ 0) (J : Matrix6Xd K) :
    (dampedMatrix damp J).det ≠ 0 := by
  have h := Matrix.mulVec_injective_iff_isUnit.mp (dampedMatrix_mulVec_injective damp hd J)
  exact (Matrix.isUnit_iff_isUnit_det _).mp h |>.ne_zero

theorem dampedMatrix_existsUnique (damp : K) (hd : damp ≠ 0) (J : Matrix6Xd K)
    (err : Vector6d K) : ∃! f : Vector6d K, dampedMatrix damp J *ᵥ f = err := by
  have hu : IsUnit (dampedMatrix damp J).det :=
    isUnit_iff_ne_zero.mpr (dampedMatrix_det_ne_zero damp hd J)
  refine ⟨(dampedMatrix damp J)⁻¹ *ᵥ err, ?_, ?_⟩
  · show dampedMatrix damp J *ᵥ ((dampedMatrix damp J)⁻¹ *ᵥ err) = err
    rw [Matrix.mulVec_mulVec, Matrix.mul_nonsing_inv _ hu, Matrix.one_mulVec]
  · intro f hf
    exact dampedMatrix_mulVec_injective damp hd J
      (by
        show dampedMatrix damp J *ᵥ f = dampedMatrix damp J *ᵥ ((dampedMatrix damp J)⁻¹ *ᵥ err)
        rw [hf, Matrix.mulVec_mulVec, Matrix.mul_nonsing_inv _ hu, Matrix.one_mulVec])

theorem cramerSolve_spec : SolvesNonsingular (cramerSolve : Matrix6d K → _) := by
  intro A b hA
  unfold cramerSolve
  rw [Matrix.mulVec_smul, Matrix.mulVec_mulVec, Matrix.mul_adjugate, Matrix.smul_mulVec_assoc,
    Matrix.one_mulVec, smul_smul, inv_mul_cancel₀ hA, one_smul]

theorem solve_eq_of_mulVec_eq (solve : Matrix6d K → Vector6d K → Vector6d K)
    (hsolve : SolvesNonsingular solve) (damp : K) (hd : damp ≠ 0) (J : Matrix6Xd K)
    (err f : Vector6d K) (hf : dampedMatrix damp J *ᵥ f = err) :
    solve (dampedMatrix damp J) err = f :=
  dampedMatrix_mulVec_injective damp hd J
    ((hsolve (dampedMatrix damp J) err (dampedMatrix_det_ne_zero damp hd J)).trans hf.symm)

theorem slider_solvesNonsingular (linkageExtra : String → Option (Linkage ℚ)) :
    SolvesNonsingular (slider linkageExtra).solve :=
  cramerSolve_spec

theorem sliderArm_solvesNonsingular : SolvesNonsingular sliderArm.solve :=
  cramerSolve_spec

/-- C7: for every Jacobian `J` (6 rows, any number of columns, of any rank)
and every 6-D error `err`, the system `(J*Jᵀ + damp² I) f = err` with
`damp = 0.05` has exactly one solution `f`; and when the solver returns the
solution of a nonsingular system, the increment of lines 779-780 is `Jᵀ f`,
which is what one pass of the loop adds to `jointValues`. -/
theorem dlsDelta_eq_transpose_mul_unique_solution {Robot : Type} (M : Kinematics K Robot)
    (hsolve : SolvesNonsingular M.solve) (J : Matrix6Xd K) (err : Vector6d K) :
    (∃! f : Vector6d K, dampedMatrix (5 / 100) J *ᵥ f = err)
    ∧ (∀ f : Vector6d K, dampedMatrix (5 / 100) J *ᵥ f = err →
        dlsDelta M (5 / 100) J err = transposeMulVec J f)
    ∧ (∀ (jointIndices : List Nat) (target finalTF : TRANSFORM K) (s : DlsState K Robot)
        (f : Vector6d K),
        dampedMatrix (5 / 100) (dlsJacobian M jointIndices finalTF s.robot) *ᵥ f = s.err →
        (dlsBody M jointIndices target finalTF (5 / 100) s).jointValues
          = vadd s.jointValues
              (transposeMulVec (dlsJacobian M jointIndices finalTF s.robot) f)) := by
  have hd : (5 / 100 : K) ≠ 0 := by norm_num
  have key : ∀ (J : Matrix6Xd K) (err f : Vector6d K),
      dampedMatrix (5 / 100) J *ᵥ f = err →
      dlsDelta M (5 / 100) J err = transposeMulVec J f := by
    intro J err f hf
    simp only [dlsDelta, solve_eq_of_mulVec_eq M.solve hsolve _ hd J err f hf]
  refine ⟨dampedMatrix_existsUnique _ hd J err, key J err, ?_⟩
  intro jointIndices target finalTF s f hf
  rw [dlsBody_jointValues]
  simp only [dlsIncrement]
  rw [key _ _ f hf]

theorem dlsDelta_eq_transpose_mul_unique_solution_witness :
    SolvesNonsingular sliderArm.solve
    ∧ (∃! f : Vector6d ℚ,
        dampedMatrix (5 / 100) [![1, 0, 0, 0, 0, 0]] *ᵥ f = ![1, 0, 0, 0, 0, 0])
    ∧ (∀ f : Vector6d ℚ,
        dampedMatrix (5 / 100) [![1, 0, 0, 0, 0, 0]] *ᵥ f = ![1, 0, 0, 0, 0, 0] →
        dlsDelta sliderArm (5 / 100) [![1, 0, 0, 0, 0, 0]] ![1, 0, 0, 0, 0, 0]
          = transposeMulVec [![1, 0, 0, 0, 0, 0]] f) :=
  ⟨sliderArm_solvesNonsingular,
   (dlsDelta_eq_transpose_mul_unique_solution sliderArm sliderArm_solvesNonsingular
      [![1, 0, 0, 0, 0, 0]] ![1, 0, 0, 0, 0, 0]).1,
   (dlsDelta_eq_transpose_mul_unique_solution sliderArm sliderArm_solvesNonsingular
      [![1, 0, 0, 0, 0, 0]] ![1, 0, 0, 0, 0, 0]).2.1⟩

end Damped

/-! ## Starting at the target -/

section AtTarget

variable {K Robot : Type} [LinearOrderedField K]

theorem poseError_self (angleAxis : Matrix (Fin 3) (Fin 3) K → AngleAxisd K)
    (target : TRANSFORM K) : poseError angleAxis target target = 0 := by
  simp only [poseError, sub_self, Pi.zero_apply]
  ext i
  fin_cases i <;> rfl

theorem transposeMulVec_zero (J : Matrix6Xd K) :
    transposeMulVec J 0 = List.replicate J.length 0 := by
  induction J with
  | nil => rfl
  | cons c J ih =>
    simp only [transposeMulVec, List.map_cons, List.length_cons, List.replicate_succ] at ih ⊢
    rw [ih]
    simp

theorem vadd_replicate_zero (q : VectorXd K) (n : Nat) (h : q.length ≤ n) :
    vadd q (List.replicate n 0) = q := by
  induction q generalizing n with
  | nil => simp [vadd]
  | cons x q ih =>
    cases n with
    | zero => simp at h
    | succ n =>
      have h2 : q.length ≤ n := by simpa using h
      have := ih n h2
      simp only [vadd] at this ⊢
      simp [List.replicate_succ, this]

theorem dlsDelta_zero (M : Kinematics K Robot) (hsolve : SolvesNonsingular M.solve)
    (damp : K) (hd : damp ≠ 0) (J : Matrix6Xd K) :
    dlsDelta M damp J 0 = List.replicate J.length 0 := by
  have h : M.solve (dampedMatrix damp J) 0 = 0 :=
    solve_eq_of_mulVec_eq M.solve hsolve damp hd J 0 0 (Matrix.mulVec_zero _)
  simp only [dlsDelta, h, transposeMulVec_zero]

/-- C8: when the end-effector pose at the seed joint values equals the
target, the initial error is zero, the first increment `delta` is zero, the
loop makes exactly one pass, and the index-based solver returns `RK_SOLVED`
with `jointValues` equal to the seed.  Assumed of the parts outside
Solvers.cpp: the QR solver solves nonsingular systems, the Jacobian has one
column per selected joint, there is one seed value per selected joint, and
writing the same joint values a second time does not move the distal joint. -/
theorem dampedLeastSquaresIK_chain_at_target (M : Kinematics K Robot) (robot : Robot)
    (jointIndices : List Nat) (jointValues : VectorXd K) (target finalTF : TRANSFORM K)
    (hsolve : SolvesNonsingular M.solve)
    (hJ : ∀ (r : Robot) (p : TRANSLATION K),
      (M.jacobian r jointIndices p).length = jointIndices.length)
    (hq : jointValues.length = jointIndices.length)
    (hvalues :
      M.respectToRobot (M.values (M.values robot jointIndices jointValues) jointIndices
          jointValues) (back jointIndices)
        = M.respectToRobot (M.values robot jointIndices jointValues) (back jointIndices))
    (hpose : endPose M (M.values robot jointIndices jointValues) jointIndices finalTF
        = target) :
    (dlsInit M robot jointIndices jointValues target finalTF).err = 0
    ∧ dlsIncrement M jointIndices finalTF (5 / 100)
          (dlsInit M robot jointIndices jointValues target finalTF)
        = List.replicate jointIndices.length 0
    ∧ (dlsFinal M robot jointIndices jointValues target finalTF).iterations = 1
    ∧ (dampedLeastSquaresIK_chain M robot jointIndices jointValues target finalTF).result
        = rk_result_t.RK_SOLVED
    ∧ (dampedLeastSquaresIK_chain M robot jointIndices jointValues target finalTF).jointValues
        = jointValues := by
  have hd : (5 / 100 : K) ≠ 0 := by norm_num
  have herr0 : (dlsInit M robot jointIndices jointValues target finalTF).err = 0 := by
    simp only [dlsInit, hpose, poseError_self]
  have hinc : dlsIncrement M jointIndices finalTF (5 / 100)
      (dlsInit M robot jointIndices jointValues target finalTF)
      = List.replicate jointIndices.length 0 := by
    simp only [dlsIncrement, herr0]
    rw [dlsDelta_zero M hsolve _ hd, dlsJacobian, hJ]
  have hjv : (dlsBody M jointIndices target finalTF (5 / 100)
      (dlsInit M robot jointIndices jointValues target finalTF)).jointValues
      = jointValues := by
    rw [dlsBody_jointValues, hinc]
    exact vadd_replicate_zero jointValues _ (le_of_eq hq)
  have hrobot : (dlsBody M jointIndices target finalTF (5 / 100)
      (dlsInit M robot jointIndices jointValues target finalTF)).robot
      = M.values (M.values robot jointIndices jointValues) jointIndices jointValues := by
    show M.values _ jointIndices (dlsBody M jointIndices target finalTF (5 / 100)
      (dlsInit M robot jointIndices jointValues target finalTF)).jointValues = _
    rw [hjv]
    rfl
  have herr1 : (dlsBody M jointIndices target finalTF (5 / 100)
      (dlsInit M robot jointIndices jointValues target finalTF)).err = 0 := by
    rw [dlsBody_err, hrobot]
    have hp : endPose M (M.values (M.values robot jointIndices jointValues) jointIndices
        jointValues) jointIndices finalTF = target := by
      rw [← hpose]
      simp only [endPose, hvalues]
    rw [hp, poseError_self]
  have hfinal : dlsFinal M robot jointIndices jointValues target finalTF
      = dlsBody M jointIndices target finalTF (5 / 100)
          (dlsInit M robot jointIndices jointValues target finalTF) := by
    unfold dlsFinal
    rw [dlsLoop_eq_iterate M jointIndices target finalTF (5 / 100) (1 / 1000) 100 0]
    · rfl
    · intro i hi
      omega
    · intro h
      have h1 := h.1
      simp only [Function.iterate_succ, Function.iterate_zero, Function.comp_apply, id_eq,
        zero_add] at h1
      rw [herr1] at h1
      simp only [squaredNorm, Matrix.dotProduct_zero] at h1
      have : (0 : K) < 1 / 1000 * (1 / 1000) := by norm_num
      exact lt_asymm h1 this
  have hit : (dlsFinal M robot jointIndices jointValues target finalTF).iterations = 1 := by
    rw [hfinal, dlsBody_iterations]
    rfl
  refine ⟨herr0, hinc, hit, ?_, ?_⟩
  · simp [dampedLeastSquaresIK_chain, hit]
  · simp only [dampedLeastSquaresIK_chain, hit]
    rw [hfinal] at *
    simp [hjv]

theorem dampedLeastSquaresIK_chain_at_target_witness :
    SolvesNonsingular sliderArm.solve
    ∧ (∀ (r : ℚ × ℚ) (p : TRANSLATION ℚ),
        (sliderArm.jacobian r [0, 1] p).length = [0, 1].length)
    ∧ ([1, 2] : VectorXd ℚ).length = [0, 1].length
    ∧ (dampedLeastSquaresIK_chain sliderArm (0, 0) [0, 1] [1, 2]
          (endPose sliderArm (sliderArm.values (0, 0) [0, 1] [1, 2]) [0, 1]
            TRANSFORM.Identity) TRANSFORM.Identity).result = rk_result_t.RK_SOLVED
    ∧ (dampedLeastSquaresIK_chain sliderArm (0, 0) [0, 1] [1, 2]
          (endPose sliderArm (sliderArm.values (0, 0) [0, 1] [1, 2]) [0, 1]
            TRANSFORM.Identity) TRANSFORM.Identity).jointValues = [1, 2] :=
  ⟨sliderArm_solvesNonsingular, fun _ _ => rfl, rfl,
   (dampedLeastSquaresIK_chain_at_target sliderArm (0, 0) [0, 1] [1, 2]
      (endPose sliderArm (sliderArm.values (0, 0) [0, 1] [1, 2]) [0, 1] TRANSFORM.Identity)
      TRANSFORM.Identity sliderArm_solvesNonsingular (fun _ _ => rfl) rfl rfl rfl).2.2.2.1,
   (dampedLeastSquaresIK_chain_at_target sliderArm (0, 0) [0, 1] [1, 2]
      (endPose sliderArm (sliderArm.values (0, 0) [0, 1] [1, 2]) [0, 1] TRANSFORM.Identity)
      TRANSFORM.Identity sliderArm_solvesNonsingular (fun _ _ => rfl) rfl rfl rfl).2.2.2.2⟩

end AtTarget

/-! ## The rotation half of the error -/

section RotationError

/-- A rotation fixes its axis. -/
theorem IsAngleAxisOf.mulVec_axis {R : Matrix (Fin 3) (Fin 3) ℝ} {a : AngleAxisd ℝ}
    (h : IsAngleAxisOf R a) : R *ᵥ a.axis = a.axis := by
  obtain ⟨-, -, hunit, hR⟩ := h
  have hu : a.axis 0 * a.axis 0 + a.axis 1 * a.axis 1 + a.axis 2 * a.axis 2 = 1 := by
    simpa [Matrix.dotProduct, Fin.sum_univ_three] using hunit
  rw [hR]
  ext i
  fin_cases i
  · simp [crossMatrix, Matrix.mulVec, Matrix.dotProduct, Fin.sum_univ_three,
      Matrix.vecMulVec_apply]
    linear_combination ((1 - Real.cos a.angle) * a.axis 0) * hu
  · simp [crossMatrix, Matrix.mulVec, Matrix.dotProduct, Fin.sum_univ_three,
      Matrix.vecMulVec_apply]
    linear_combination ((1 - Real.cos a.angle) * a.axis 1) * hu
  · simp [crossMatrix, Matrix.mulVec, Matrix.dotProduct, Fin.sum_univ_three,
      Matrix.vecMulVec_apply]
    linear_combination ((1 - Real.cos a.angle) * a.axis 2) * hu

/-- A rotation fixes its rotation vector. -/
theorem IsRotationVectorOf.mulVec_eq {R : Matrix (Fin 3) (Fin 3) ℝ} {v : Fin 3 → ℝ}
    (h : IsRotationVectorOf R v) : R *ᵥ v = v := by
  obtain ⟨a, ha, rfl⟩ := h
  rw [Matrix.mulVec_smul, ha.mulVec_axis]

theorem rotationPart_poseError {K : Type} [LinearOrderedField K]
    (angleAxis : Matrix (Fin 3) (Fin 3) K → AngleAxisd K) (target pose : TRANSFORM K) :
    rotationPart (poseError angleAxis target pose)
      = (angleAxis target.rotation).angle • (angleAxis target.rotation).axis
        - (angleAxis pose.rotation).angle • (angleAxis pose.rotation).axis := by
  ext i
  fin_cases i <;> rfl

theorem crossMatrix_transpose (k : Fin 3 → ℝ) : (crossMatrix k)ᵀ = -crossMatrix k := by
  ext i j
  fin_cases i <;> fin_cases j <;> simp [crossMatrix, Matrix.transpose_apply]

theorem crossMatrix_neg (k : Fin 3 → ℝ) : crossMatrix (-k) = -crossMatrix k := by
  ext i j
  fin_cases i <;> fin_cases j <;> simp [crossMatrix]

theorem vecMulVec_neg_neg (k : Fin 3 → ℝ) : vecMulVec (-k) (-k) = vecMulVec k k := by
  ext i j
  simp [vecMulVec_apply]

theorem vecMulVec_self_transpose (k : Fin 3 → ℝ) : (vecMulVec k k)ᵀ = vecMulVec k k := by
  ext i j
  simp [vecMulVec_apply, Matrix.transpose_apply, mul_comm]

theorem crossMatrix_mul_vecMulVec (k : Fin 3 → ℝ) : crossMatrix k * vecMulVec k k = 0 := by
  ext i j
  fin_cases i <;>
    simp [crossMatrix, Matrix.mul_apply, Fin.sum_univ_three, vecMulVec_apply] <;> ring

theorem vecMulVec_mul_crossMatrix (k : Fin 3 → ℝ) : vecMulVec k k * crossMatrix k = 0 := by
  ext i j
  fin_cases j <;>
    simp [crossMatrix, Matrix.mul_apply, Fin.sum_univ_three, vecMulVec_apply] <;> ring

theorem vecMulVec_mul_self (k : Fin 3 → ℝ) (hu : k ⬝ᵥ k = 1) :
    vecMulVec k k * vecMulVec k k = vecMulVec k k := by
  have hu' : k 0 * k 0 + k 1 * k 1 + k 2 * k 2 = 1 := by
    simpa [Matrix.dotProduct, Fin.sum_univ_three] using hu
  ext i j
  simp only [Matrix.mul_apply, Fin.sum_univ_three, vecMulVec_apply]
  linear_combination (k i * k j) * hu'

theorem crossMatrix_mul_self (k : Fin 3 → ℝ) (hu : k ⬝ᵥ k = 1) :
    crossMatrix k * crossMatrix k = vecMulVec k k - 1 := by
  have hu' : k 0 * k 0 + k 1 * k 1 + k 2 * k 2 = 1 := by
    simpa [Matrix.dotProduct, Fin.sum_univ_three] using hu
  ext i j
  fin_cases i <;> fin_cases j <;>
    simp [crossMatrix, Matrix.mul_apply, Fin.sum_univ_three, vecMulVec_apply,
      Matrix.one_apply] <;>
    first
    | ring1
    | linear_combination hu'
    | linear_combination -hu'

theorem rodrigues_mul_transpose (k : Fin 3 → ℝ) (hu : k ⬝ᵥ k = 1) (α β : ℝ) :
    (Real.cos α • (1 : Matrix (Fin 3) (Fin 3) ℝ) + Real.sin α • crossMatrix k
        + (1 - Real.cos α) • vecMulVec k k)
      * (Real.cos β • (1 : Matrix (Fin 3) (Fin 3) ℝ) + Real.sin β • crossMatrix k
        + (1 - Real.cos β) • vecMulVec k k)ᵀ
    = Real.cos (α - β) • (1 : Matrix (Fin 3) (Fin 3) ℝ) + Real.sin (α - β) • crossMatrix k
        + (1 - Real.cos (α - β)) • vecMulVec k k := by
  simp only [Matrix.transpose_add, Matrix.transpose_smul, Matrix.transpose_one,
    crossMatrix_transpose, vecMulVec_self_transpose, Matrix.add_mul, Matrix.mul_add,
    Matrix.smul_mul, Matrix.mul_smul, Matrix.one_mul, Matrix.mul_one, Matrix.mul_neg,
    crossMatrix_mul_self k hu, crossMatrix_mul_vecMulVec, vecMulVec_mul_crossMatrix,
    vecMulVec_mul_self k hu, Real.cos_sub, Real.sin_sub]
  ext i j
  simp only [Matrix.add_apply, Matrix.smul_apply, Matrix.neg_apply, Matrix.sub_apply,
    Matrix.zero_apply, smul_eq_mul]
  ring

/-- The identity has angle 0 in every angle-axis form with angle in `[0, π]`. -/
theorem IsAngleAxisOf.angle_eq_zero {a : AngleAxisd ℝ} (h : IsAngleAxisOf 1 a) :
    a.angle = 0 := by
  obtain ⟨h0, hpi, hunit, hR⟩ := h
  have hu : a.axis 0 * a.axis 0 + a.axis 1 * a.axis 1 + a.axis 2 * a.axis 2 = 1 := by
    simpa [Matrix.dotProduct, Fin.sum_univ_three] using hunit
  have h00 := congrFun (congrFun hR 0) 0
  have h11 := congrFun (congrFun hR 1) 1
  have h22 := congrFun (congrFun hR 2) 2
  simp [crossMatrix, Matrix.vecMulVec_apply] at h00 h11 h22
  have hcos : Real.cos a.angle = Real.cos 0 := by
    rw [Real.cos_zero]
    linear_combination (-1 / 2 : ℝ) * h00 + (-1 / 2 : ℝ) * h11 + (-1 / 2 : ℝ) * h22
      - ((1 - Real.cos a.angle) / 2) * hu
  exact Real.injOn_cos ⟨h0, hpi⟩ ⟨le_refl _, Real.pi_pos.le⟩ hcos

/-- Two rotations about the same axis: the difference of their rotation
vectors is a rotation vector of the relative rotation. -/
theorem isRotationVectorOf_sub_of_axis_eq {Rt Rp : Matrix (Fin 3) (Fin 3) ℝ}
    {a b : AngleAxisd ℝ} (ha : IsAngleAxisOf Rt a) (hb : IsAngleAxisOf Rp b)
    (hax : b.axis = a.axis) :
    IsRotationVectorOf (Rt * Rpᵀ) (a.angle • a.axis - b.angle • b.axis) := by
  obtain ⟨ha0, hapi, hunit, hRt⟩ := ha
  obtain ⟨hb0, hbpi, -, hRp⟩ := hb
  rw [hax] at hRp
  have hprod := rodrigues_mul_transpose a.axis hunit a.angle b.angle
  rw [← hRt, ← hRp] at hprod
  rw [hax, ← sub_smul]
  rcases le_total b.angle a.angle with hle | hle
  · exact ⟨⟨a.angle - b.angle, a.axis⟩, ⟨by simpa using hle, by simp only; linarith, hunit,
      hprod⟩, rfl⟩
  · refine ⟨⟨b.angle - a.angle, -a.axis⟩, ⟨by simpa using hle, by simp only; linarith, ?_, ?_⟩,
      ?_⟩
    · simpa using hunit
    · rw [hprod]
      simp only [crossMatrix_neg, vecMulVec_neg_neg]
      rw [← neg_sub a.angle b.angle, Real.cos_neg, Real.sin_neg]
      simp
    · simp only [smul_neg, ← neg_smul, neg_sub]

/-- When the current rotation is the identity, the difference of the rotation
vectors is the rotation vector of the target, hence of the relative rotation. -/
theorem isRotationVectorOf_sub_of_eq_one {Rt Rp : Matrix (Fin 3) (Fin 3) ℝ}
    {a b : AngleAxisd ℝ} (ha : IsAngleAxisOf Rt a) (hb : IsAngleAxisOf Rp b)
    (hone : Rp = 1) :
    IsRotationVectorOf (Rt * Rpᵀ) (a.angle • a.axis - b.angle • b.axis) := by
  subst hone
  rw [hb.angle_eq_zero, zero_smul, sub_zero, Matrix.transpose_one, Matrix.mul_one]
  exact ⟨a, ha, rfl⟩

/-- C9, as the code has it: the rotation half of the 6-D error is the
difference of what `AngleAxisd` returns for the target rotation and for the
current end-effector rotation, each as angle times axis.  Provided
`AngleAxisd` returns for each of the two rotations a unit axis and an angle in
`[0, π]` that represent it, the two terms are rotation vectors of the target
and of the current rotation, and their difference is the rotation vector of
the relative rotation `R_target · R_currentᵀ` when the two axes returned are
equal, and when the current rotation is the identity. -/
theorem poseError_rotationPart_eq_difference
    (angleAxis : Matrix (Fin 3) (Fin 3) ℝ → AngleAxisd ℝ) (target pose : TRANSFORM ℝ)
    (ht : IsAngleAxisOf target.rotation (angleAxis target.rotation))
    (hp : IsAngleAxisOf pose.rotation (angleAxis pose.rotation)) :
    (∃ vt vp : Fin 3 → ℝ,
      IsRotationVectorOf target.rotation vt ∧ IsRotationVectorOf pose.rotation vp
      ∧ rotationPart (poseError angleAxis target pose) = vt - vp)
    ∧ ((angleAxis pose.rotation).axis = (angleAxis target.rotation).axis →
      IsRotationVectorOf (target.rotation * pose.rotationᵀ)
        (rotationPart (poseError angleAxis target pose)))
    ∧ (pose.rotation = 1 →
      IsRotationVectorOf (target.rotation * pose.rotationᵀ)
        (rotationPart (poseError angleAxis target pose)))
    ∧ rotationPart (poseError angleAxis target pose)
        = (angleAxis target.rotation).angle • (angleAxis target.rotation).axis
          - (angleAxis pose.rotation).angle • (angleAxis pose.rotation).axis := by
  refine ⟨⟨(angleAxis target.rotation).angle • (angleAxis target.rotation).axis,
    (angleAxis pose.rotation).angle • (angleAxis pose.rotation).axis,
    ⟨angleAxis target.rotation, ht, rfl⟩, ⟨angleAxis pose.rotation, hp, rfl⟩,
    rotationPart_poseError angleAxis target pose⟩, fun hax => ?_, fun hone => ?_,
    rotationPart_poseError angleAxis target pose⟩
  · rw [rotationPart_poseError]
    exact isRotationVectorOf_sub_of_axis_eq ht hp hax
  · rw [rotationPart_poseError]
    exact isRotationVectorOf_sub_of_eq_one ht hp hone

theorem isAngleAxisOf_one_zero : IsAngleAxisOf 1 ⟨0, ![1, 0, 0]⟩ := by
  refine ⟨le_refl _, Real.pi_pos.le, ?_, ?_⟩
  · simp [Matrix.dotProduct, Fin.sum_univ_three]
  · simp

theorem isAngleAxisOf_halfTurn_x :
    IsAngleAxisOf !![1, 0, 0; 0, -1, 0; 0, 0, -1] ⟨Real.pi, ![1, 0, 0]⟩ := by
  refine ⟨Real.pi_pos.le, le_refl _, ?_, ?_⟩
  · simp [Matrix.dotProduct, Fin.sum_univ_three]
  · ext i j
    fin_cases i <;> fin_cases j <;>
      simp [crossMatrix, Matrix.vecMulVec_apply, Matrix.one_apply, Matrix.vecHead,
        Matrix.vecTail]

theorem isAngleAxisOf_quarterTurn_x :
    IsAngleAxisOf !![1, 0, 0; 0, 0, -1; 0, 1, 0] ⟨Real.pi / 2, ![1, 0, 0]⟩ := by
  refine ⟨by positivity, by linarith [Real.pi_pos], ?_, ?_⟩
  · simp [Matrix.dotProduct, Fin.sum_univ_three]
  · ext i j
    fin_cases i <;> fin_cases j <;>
      simp [crossMatrix, Matrix.vecMulVec_apply, Matrix.one_apply, Matrix.vecHead,
        Matrix.vecTail]

/-- A target that is a half turn about x, with the angle read off the trace.
Against a current rotation that is a quarter turn about x the rotation half of
the error is `(π/2, 0, 0)`, the rotation vector of the relative rotation;
against the identity it is the rotation vector of the target. -/
theorem poseError_rotationPart_eq_difference_witness :
    IsAngleAxisOf !![1, 0, 0; 0, -1, 0; 0, 0, -1] ⟨Real.pi, ![1, 0, 0]⟩
    ∧ IsAngleAxisOf !![1, 0, 0; 0, 0, -1; 0, 1, 0] ⟨Real.pi / 2, ![1, 0, 0]⟩
    ∧ rotationPart (poseError
        (fun R => ⟨Real.arccos ((R 0 0 + R 1 1 + R 2 2 - 1) / 2), ![1, 0, 0]⟩)
        ⟨!![1, 0, 0; 0, -1, 0; 0, 0, -1], 0⟩ ⟨!![1, 0, 0; 0, 0, -1; 0, 1, 0], 0⟩)
      = ![Real.pi / 2, 0, 0]
    ∧ IsRotationVectorOf
        (!![1, 0, 0; 0, -1, 0; 0, 0, -1] * (!![1, 0, 0; 0, 0, -1; 0, 1, 0] : Matrix _ _ ℝ)ᵀ)
        (rotationPart (poseError
          (fun R => ⟨Real.arccos ((R 0 0 + R 1 1 + R 2 2 - 1) / 2), ![1, 0, 0]⟩)
          ⟨!![1, 0, 0; 0, -1, 0; 0, 0, -1], 0⟩ ⟨!![1, 0, 0; 0, 0, -1; 0, 1, 0], 0⟩))
    ∧ IsAngleAxisOf 1 ⟨0, ![1, 0, 0]⟩
    ∧ IsRotationVectorOf
        (!![1, 0, 0; 0, -1, 0; 0, 0, -1] * (1 : Matrix (Fin 3) (Fin 3) ℝ)ᵀ)
        (rotationPart (poseError
          (fun R => ⟨Real.arccos ((R 0 0 + R 1 1 + R 2 2 - 1) / 2), ![1, 0, 0]⟩)
          ⟨!![1, 0, 0; 0, -1, 0; 0, 0, -1], 0⟩ ⟨1, 0⟩)) := by
  have ht : Real.arccos (((!![1, 0, 0; 0, -1, 0; 0, 0, -1] : Matrix _ _ ℝ) 0 0
      + (!![1, 0, 0; 0, -1, 0; 0, 0, -1] : Matrix _ _ ℝ) 1 1
      + (!![1, 0, 0; 0, -1, 0; 0, 0, -1] : Matrix _ _ ℝ) 2 2 - 1) / 2) = Real.pi := by
    simp
    norm_num
  have hp : Real.arccos (((!![1, 0, 0; 0, 0, -1; 0, 1, 0] : Matrix _ _ ℝ) 0 0
      + (!![1, 0, 0; 0, 0, -1; 0, 1, 0] : Matrix _ _ ℝ) 1 1
      + (!![1, 0, 0; 0, 0, -1; 0, 1, 0] : Matrix _ _ ℝ) 2 2 - 1) / 2) = Real.pi / 2 := by
    simp
  have h1 : Real.arccos (((1 : Matrix (Fin 3) (Fin 3) ℝ) 0 0
      + (1 : Matrix (Fin 3) (Fin 3) ℝ) 1 1
      + (1 : Matrix (Fin 3) (Fin 3) ℝ) 2 2 - 1) / 2) = 0 := by
    simp
  have h := poseError_rotationPart_eq_difference
    (fun R => ⟨Real.arccos ((R 0 0 + R 1 1 + R 2 2 - 1) / 2), ![1, 0, 0]⟩)
    ⟨!![1, 0, 0; 0, -1, 0; 0, 0, -1], 0⟩ ⟨!![1, 0, 0; 0, 0, -1; 0, 1, 0], 0⟩
    (by dsimp only; rw [ht]; exact isAngleAxisOf_halfTurn_x)
    (by dsimp only; rw [hp]; exact isAngleAxisOf_quarterTurn_x)
  have h' := poseError_rotationPart_eq_difference
    (fun R => ⟨Real.arccos ((R 0 0 + R 1 1 + R 2 2 - 1) / 2), ![1, 0, 0]⟩)
    ⟨!![1, 0, 0; 0, -1, 0; 0, 0, -1], 0⟩ ⟨1, 0⟩
    (by dsimp only; rw [ht]; exact isAngleAxisOf_halfTurn_x)
    (by dsimp only; rw [h1]; exact isAngleAxisOf_one_zero)
  refine ⟨isAngleAxisOf_halfTurn_x, isAngleAxisOf_quarterTurn_x, ?_, h.2.1 rfl,
    isAngleAxisOf_one_zero, h'.2.2.1 rfl⟩
  rw [rotationPart_poseError]
  dsimp only
  rw [ht, hp]
  ext i
  fin_cases i
  · simp
    ring
  · simp
  · simp

theorem isAngleAxisOf_halfTurn_y :
    IsAngleAxisOf !![-1, 0, 0; 0, 1, 0; 0, 0, -1] ⟨Real.pi, ![0, 1, 0]⟩ := by
  refine ⟨Real.pi_pos.le, le_refl _, ?_, ?_⟩
  · simp [Matrix.dotProduct, Fin.sum_univ_three]
  · ext i j
    fin_cases i <;> fin_cases j <;>
      simp [crossMatrix, Matrix.vecMulVec_apply, Matrix.one_apply, Matrix.vecHead,
        Matrix.vecTail]

/-- C9 fails: with the target a half turn about x and the current rotation a
half turn about y, both converted correctly, the rotation half of the error is
`(π, -π, 0)`, which is not a rotation vector of `R_target · R_currentᵀ` (the
half turn about z). -/
theorem poseError_rotationPart_not_relative_rotation :
    ∃ (angleAxis : Matrix (Fin 3) (Fin 3) ℝ → AngleAxisd ℝ) (target pose : TRANSFORM ℝ),
      IsAngleAxisOf target.rotation (angleAxis target.rotation)
      ∧ IsAngleAxisOf pose.rotation (angleAxis pose.rotation)
      ∧ ¬ IsRotationVectorOf (target.rotation * pose.rotationᵀ)
            (rotationPart (poseError angleAxis target pose)) := by
  classical
  refine ⟨fun R => if R 0 0 = 1 then ⟨Real.pi, ![1, 0, 0]⟩ else ⟨Real.pi, ![0, 1, 0]⟩,
    ⟨!![1, 0, 0; 0, -1, 0; 0, 0, -1], 0⟩, ⟨!![-1, 0, 0; 0, 1, 0; 0, 0, -1], 0⟩, ?_, ?_, ?_⟩
  · simpa using isAngleAxisOf_halfTurn_x
  · have h : ¬ ((-1 : ℝ) = 1) := by norm_num
    simpa [h] using isAngleAxisOf_halfTurn_y
  · intro hv
    have h := congrFun hv.mulVec_eq 0
    have hne : ¬ ((-1 : ℝ) = 1) := by norm_num
    simp [rotationPart_poseError, hne, Matrix.mulVec, Matrix.dotProduct, Fin.sum_univ_three,
      Matrix.mul_apply, Matrix.transpose_apply, Matrix.vecHead, Matrix.vecTail] at h
    have hpi := Real.pi_pos
    linarith

end RotationError

section SliderRun

theorem vec6_val_five {K : Type} (a b c d e f : K) :
    (![a, b, c, d, e, f] : Fin 6 → K) 5 = f := rfl

theorem sliderArm_jacobian01 (r : ℚ × ℚ) (p : TRANSLATION ℚ) :
    sliderArm.jacobian r [0, 1] p
      = [![1, 0, 0, 0, 0, 0], ![3612 / 3613, 85 / 3613, 0, 0, 0, 0]] := by
  simp [sliderArm, slider, sliderAxis]

theorem slider_damped_mulVec (k : ℚ) :
    dampedMatrix (5 / 100) [![1, 0, 0, 0, 0, 0], ![3612 / 3613, 85 / 3613, 0, 0, 0, 0]]
        *ᵥ ![400 * k / 4013, -(34000 * k) / 4013, 0, 0, 0, 0]
      = ![k / 3613, -(85 * k) / 3613, 0, 0, 0, 0] := by
  rw [dampedMatrix, mulTranspose_cons, mulTranspose_cons]
  simp only [mulTranspose, List.map_nil, List.sum_nil, add_zero, Matrix.add_mulVec,
    vecMulVec_self_mulVec, Matrix.smul_mulVec_assoc, Matrix.one_mulVec]
  ext i
  fin_cases i <;> simp [Matrix.dotProduct, Fin.sum_univ_succ, vec6_val_five] <;> ring

theorem sliderArm_increment (T k : ℚ) (j : Nat) :
    dlsIncrement sliderArm [0, 1] TRANSFORM.Identity (5 / 100) (sliderState T k j)
      = [400 * k / 4013, -(400 * k) / 4013] := by
  have hd : (5 / 100 : ℚ) ≠ 0 := by norm_num
  simp only [dlsIncrement, dlsDelta, dlsJacobian, sliderArm_jacobian01]
  have herr : (sliderState T k j).err = ![k / 3613, -(85 * k) / 3613, 0, 0, 0, 0] := rfl
  rw [herr, solve_eq_of_mulVec_eq sliderArm.solve sliderArm_solvesNonsingular _ hd _ _ _
    (slider_damped_mulVec k)]
  simp [transposeMulVec, Matrix.dotProduct, Fin.sum_univ_succ, vec6_val_five]
  ring

theorem sliderArm_body (T k : ℚ) (j : Nat) :
    dlsBody sliderArm [0, 1] (sliderTarget T) TRANSFORM.Identity (5 / 100) (sliderState T k j)
      = sliderState T (k * (3613 / 4013)) (j + 1) := by
  have hjv : vadd (sliderState T k j).jointValues [400 * k / 4013, -(400 * k) / 4013]
      = [T - k * (3613 / 4013), -(T - k * (3613 / 4013))] := by
    simp only [sliderState, vadd, List.zipWith_cons_cons, List.zipWith_nil_right]
    congr 1
    · ring
    · congr 1
      ring
  simp only [dlsBody, sliderArm_increment, hjv]
  simp only [sliderState, DlsState.mk.injEq, and_true, true_and]
  have hval : sliderArm.values (T - k, -(T - k)) [0, 1]
      [T - k * (3613 / 4013), -(T - k * (3613 / 4013))]
      = (T - k * (3613 / 4013), -(T - k * (3613 / 4013))) := rfl
  refine ⟨hval, ?_⟩
  rw [hval]
  ext i
  fin_cases i <;>
    simp [poseError, endPose, back, sliderArm, slider, sliderAxis, sliderTarget, translate,
      TRANSFORM.mul, TRANSFORM.Identity, vec6_val_five] <;> ring

theorem sliderArm_body_iterate (T k : ℚ) (j n : Nat) :
    (dlsBody sliderArm [0, 1] (sliderTarget T) TRANSFORM.Identity (5 / 100))^[n]
        (sliderState T k j)
      = sliderState T (k * (3613 / 4013) ^ n) (j + n) := by
  induction n generalizing k j with
  | zero => simp
  | succ n ih =>
    rw [Function.iterate_succ_apply, sliderArm_body, ih]
    congr 1
    · ring
    · omega

theorem sliderState_squaredNorm (T k : ℚ) (j : Nat) :
    squaredNorm (sliderState T k j).err = k * k * (2 / 3613) := by
  simp [squaredNorm, sliderState, Matrix.dotProduct, Fin.sum_univ_succ, vec6_val_five]
  ring

theorem sliderArm_init (T : ℚ) :
    dlsInit sliderArm (0, 0) [0, 1] [0, 0] (sliderTarget T) TRANSFORM.Identity
      = sliderState T T 0 := by
  have hval : sliderArm.values (0, 0) [0, 1] [0, 0] = (0, 0) := rfl
  simp only [dlsInit, sliderState, hval, DlsState.mk.injEq, and_true, sub_self, neg_zero,
    true_and]
  ext i
  fin_cases i <;>
    simp [poseError, endPose, back, sliderArm, slider, sliderAxis, sliderTarget, translate,
      TRANSFORM.mul, TRANSFORM.Identity, vec6_val_five]

theorem sliderArm_final :
    dlsFinal sliderArm (0, 0) [0, 1] [0, 0] (sliderTarget 1450) TRANSFORM.Identity
      = sliderState 1450 (1450 * (3613 / 4013) ^ 100) 100 := by
  unfold dlsFinal
  rw [sliderArm_init, dlsLoop_eq_iterate sliderArm [0, 1] (sliderTarget 1450)
    TRANSFORM.Identity (5 / 100) (1 / 1000) 100 99]
  · rw [sliderArm_body_iterate]
  · intro i hi
    refine ⟨?_, by simp only [sliderState]; omega⟩
    rw [sliderArm_body_iterate, sliderState_squaredNorm]
    have hr : ((3613 : ℚ) / 4013) ^ 99 ≤ (3613 / 4013) ^ (i + 1) :=
      pow_le_pow_of_le_one (by norm_num) (by norm_num) (by omega)
    have hpos : (0 : ℚ) < (3613 / 4013) ^ 99 := by positivity
    have hnum : (1 / 1000 : ℚ) * (1 / 1000)
        < 1450 * (3613 / 4013) ^ 99 * (1450 * (3613 / 4013) ^ 99) * (2 / 3613) := by
      norm_num
    have hmono : (1450 : ℚ) * (3613 / 4013) ^ 99 * (1450 * (3613 / 4013) ^ 99)
        ≤ 1450 * (3613 / 4013) ^ (i + 1) * (1450 * (3613 / 4013) ^ (i + 1)) := by
      have h1 : (1450 : ℚ) * (3613 / 4013) ^ 99 ≤ 1450 * (3613 / 4013) ^ (i + 1) := by
        linarith
      have h0 : (0 : ℚ) ≤ 1450 * (3613 / 4013) ^ 99 := by positivity
      exact mul_le_mul h1 h1 h0 (le_trans h0 h1)
    have h2 : (0 : ℚ) < 2 / 3613 := by norm_num
    nlinarith
  · intro h
    have := h.2
    simp only [sliderState] at this
    omega

theorem sliderArm_poseError (T k : ℚ) (j : Nat) :
    poseError sliderArm.angleAxis (sliderTarget T)
        (endPose sliderArm (sliderState T k j).robot [0, 1] TRANSFORM.Identity)
      = (sliderState T k j).err := by
  ext i
  fin_cases i <;>
    simp [poseError, endPose, back, sliderArm, slider, sliderAxis, sliderTarget, translate,
      TRANSFORM.mul, TRANSFORM.Identity, vec6_val_five, sliderState] <;> ring

/-- The result code is decided by the pass counter alone. -/
theorem dampedLeastSquaresIK_chain_result_iff {K Robot : Type} [LinearOrderedField K]
    (M : Kinematics K Robot) (robot : Robot) (jointIndices : List Nat)
    (jointValues : VectorXd K) (target finalTF : TRANSFORM K) :
    ((dampedLeastSquaresIK_chain M robot jointIndices jointValues target finalTF).result
        = rk_result_t.RK_SOLVED
      ↔ (dlsFinal M robot jointIndices jointValues target finalTF).iterations < 100)
    ∧ ((dampedLeastSquaresIK_chain M robot jointIndices jointValues target finalTF).result
        = rk_result_t.RK_DIVERGED
      ↔ (dlsFinal M robot jointIndices jointValues target finalTF).iterations = 100)
    ∧ (dampedLeastSquaresIK_chain M robot jointIndices jointValues target finalTF).robot
        = (dlsFinal M robot jointIndices jointValues target finalTF).robot
    ∧ (dampedLeastSquaresIK_chain M robot jointIndices jointValues target finalTF).jointValues
        = (dlsFinal M robot jointIndices jointValues target finalTF).jointValues := by
  obtain ⟨n, hle, -, hit, -, -⟩ :=
    dlsFinal_spec M robot jointIndices jointValues target finalTF
  unfold dampedLeastSquaresIK_chain
  by_cases h : (dlsFinal M robot jointIndices jointValues target finalTF).iterations < 100
  · rw [if_pos h]
    exact ⟨⟨fun _ => h, fun _ => rfl⟩, ⟨fun hc => (by cases hc), fun hc => (by omega)⟩, rfl, rfl⟩
  · rw [if_neg h]
    exact ⟨⟨fun hc => (by cases hc), fun hc => absurd hc h⟩,
      ⟨fun _ => (by omega), fun _ => rfl⟩, rfl, rfl⟩

/-- A result `RK_SOLVED` does mean that the error of the returned joint values
is within the tolerance. -/
theorem dampedLeastSquaresIK_chain_solved_within_tolerance {K Robot : Type}
    [LinearOrderedField K] (M : Kinematics K Robot) (robot : Robot) (jointIndices : List Nat)
    (jointValues : VectorXd K) (target finalTF : TRANSFORM K)
    (h : (dampedLeastSquaresIK_chain M robot jointIndices jointValues target finalTF).result
      = rk_result_t.RK_SOLVED) :
    squaredNorm (poseError M.angleAxis target
        (endPose M (dampedLeastSquaresIK_chain M robot jointIndices jointValues target
          finalTF).robot jointIndices finalTF))
      ≤ (1 / 1000 : K) * (1 / 1000) := by
  obtain ⟨hs, -, hrobot, -⟩ :=
    dampedLeastSquaresIK_chain_result_iff M robot jointIndices jointValues target finalTF
  obtain ⟨n, -, hn, hit, -, htol⟩ :=
    dlsFinal_spec M robot jointIndices jointValues target finalTF
  have hlt := hs.mp h
  have herr : (dlsFinal M robot jointIndices jointValues target finalTF).err
      = poseError M.angleAxis target
          (endPose M (dlsFinal M robot jointIndices jointValues target finalTF).robot
            jointIndices finalTF) := by
    rw [hn, Function.iterate_succ_apply']
    rfl
  rw [hrobot, ← herr]
  exact htol (by omega)

/-- C6 fails at the iteration cap.  Two prismatic joints with nearly parallel
axes, seed `[0, 0]`, target `1450` times the difference of the axes: the error
is still above the tolerance after 99 passes, drops below it on the 100th, and
the solver returns `RK_DIVERGED` although the error of the returned joint
values is within the tolerance. -/
theorem dampedLeastSquaresIK_chain_diverged_within_tolerance :
    (dlsFinal sliderArm (0, 0) [0, 1] [0, 0] (sliderTarget 1450)
        TRANSFORM.Identity).iterations = 100
    ∧ (1 / 1000 : ℚ) * (1 / 1000)
        < squaredNorm ((dlsBody sliderArm [0, 1] (sliderTarget 1450) TRANSFORM.Identity
            (5 / 100))^[99]
            (dlsInit sliderArm (0, 0) [0, 1] [0, 0] (sliderTarget 1450)
              TRANSFORM.Identity)).err
    ∧ (dampedLeastSquaresIK_chain sliderArm (0, 0) [0, 1] [0, 0] (sliderTarget 1450)
        TRANSFORM.Identity).result = rk_result_t.RK_DIVERGED
    ∧ squaredNorm (poseError sliderArm.angleAxis (sliderTarget 1450)
          (endPose sliderArm
            (dampedLeastSquaresIK_chain sliderArm (0, 0) [0, 1] [0, 0] (sliderTarget 1450)
              TRANSFORM.Identity).robot [0, 1] TRANSFORM.Identity))
        ≤ (1 / 1000 : ℚ) * (1 / 1000) := by
  obtain ⟨-, hdiv, hrobot, -⟩ := dampedLeastSquaresIK_chain_result_iff sliderArm (0, 0)
    [0, 1] [0, 0] (sliderTarget 1450) TRANSFORM.Identity
  have hit : (dlsFinal sliderArm (0, 0) [0, 1] [0, 0] (sliderTarget 1450)
      TRANSFORM.Identity).iterations = 100 := by
    rw [sliderArm_final]
    rfl
  refine ⟨hit, ?_, hdiv.mpr hit, ?_⟩
  · rw [sliderArm_init, sliderArm_body_iterate, sliderState_squaredNorm]
    norm_num
  · rw [hrobot, sliderArm_final, sliderArm_poseError, sliderState_squaredNorm]
    norm_num

/-! ### A run on `joint_0` alone -/

theorem translate_zero : translate 0 0 0 = TRANSFORM.Identity := by
  have h : (![0, 0, 0] : Fin 3 → ℚ) = 0 := by
    ext i
    fin_cases i <;> rfl
  simp only [translate, TRANSFORM.Identity, h]

theorem sliderArm_jacobian0 (r : ℚ × ℚ) (p : TRANSLATION ℚ) :
    sliderArm.jacobian r [0] p = [![1, 0, 0, 0, 0, 0]] := by
  simp [sliderArm, slider, sliderAxis]

theorem slider_damped_mulVec0 (k : ℚ) :
    dampedMatrix (5 / 100) [![1, 0, 0, 0, 0, 0]] *ᵥ ![400 * k / 401, 0, 0, 0, 0, 0]
      = ![k, 0, 0, 0, 0, 0] := by
  rw [dampedMatrix, mulTranspose_cons]
  simp only [mulTranspose, List.map_nil, List.sum_nil, add_zero, Matrix.add_mulVec,
    vecMulVec_self_mulVec, Matrix.smul_mulVec_assoc, Matrix.one_mulVec]
  ext i
  fin_cases i <;> simp [Matrix.dotProduct, Fin.sum_univ_succ, vec6_val_five]
  ring

theorem sliderArm_increment0 (finalTF : TRANSFORM ℚ) (c k : ℚ) (j : Nat) :
    dlsIncrement sliderArm [0] finalTF (5 / 100) (sliderState0 c k j) = [400 * k / 401] := by
  have hd : (5 / 100 : ℚ) ≠ 0 := by norm_num
  simp only [dlsIncrement, dlsDelta, dlsJacobian, sliderArm_jacobian0]
  have herr : (sliderState0 c k j).err = ![k, 0, 0, 0, 0, 0] := rfl
  rw [herr, solve_eq_of_mulVec_eq sliderArm.solve sliderArm_solvesNonsingular _ hd _ _ _
    (slider_damped_mulVec0 k)]
  simp [transposeMulVec, Matrix.dotProduct, Fin.sum_univ_succ, vec6_val_five]

theorem sliderArm_body0 (t o k : ℚ) (j : Nat) :
    dlsBody sliderArm [0] (translate t 0 0) (translate o 0 0) (5 / 100)
        (sliderState0 (t - o) k j)
      = sliderState0 (t - o) (k / 401) (j + 1) := by
  have hjv : vadd (sliderState0 (t - o) k j).jointValues [400 * k / 401]
      = [t - o - k / 401] := by
    simp only [sliderState0, vadd, List.zipWith_cons_cons, List.zipWith_nil_right]
    congr 1
    ring
  simp only [dlsBody, sliderArm_increment0, hjv]
  simp only [sliderState0, DlsState.mk.injEq, and_true, true_and]
  have hval : sliderArm.values (t - o - k, 0) [0] [t - o - k / 401]
      = (t - o - k / 401, 0) := rfl
  refine ⟨hval, ?_⟩
  rw [hval]
  ext i
  fin_cases i <;>
    simp [poseError, endPose, back, sliderArm, slider, sliderAxis, translate,
      TRANSFORM.mul, vec6_val_five]
  ring

theorem sliderArm_init0 (t o : ℚ) :
    dlsInit sliderArm (0, 0) [0] [0] (translate t 0 0) (translate o 0 0)
      = sliderState0 (t - o) (t - o) 0 := by
  have hval : sliderArm.values (0, 0) [0] [0] = (0, 0) := rfl
  simp only [dlsInit, sliderState0, hval, DlsState.mk.injEq, and_true, sub_self, true_and]
  ext i
  fin_cases i <;>
    simp [poseError, endPose, back, sliderArm, slider, sliderAxis, translate,
      TRANSFORM.mul, vec6_val_five]

/-- The run without tool offset: two passes, ending at `160800 / 160801`. -/
theorem sliderArm_final0_identity :
    dlsFinal sliderArm (0, 0) [0] [0] (translate 1 0 0) TRANSFORM.Identity
      = sliderState0 1 (1 / 160801) 2 := by
  unfold dlsFinal
  rw [← translate_zero, sliderArm_init0,
    dlsLoop_eq_iterate sliderArm [0] (translate 1 0 0) (translate 0 0 0) (5 / 100)
      (1 / 1000) 100 1]
  · simp only [Function.iterate_succ, Function.iterate_zero, Function.comp_apply, id_eq,
      sliderArm_body0]
    norm_num
  · intro i hi
    have hi0 : i = 0 := by omega
    subst hi0
    simp only [Function.iterate_succ, Function.iterate_zero, Function.comp_apply, id_eq,
      sliderArm_body0]
    refine ⟨?_, by simp only [sliderState0]; omega⟩
    simp [squaredNorm, sliderState0, Matrix.dotProduct, Fin.sum_univ_succ, vec6_val_five]
    norm_num
  · intro h
    have h1 := h.1
    simp only [Function.iterate_succ, Function.iterate_zero, Function.comp_apply, id_eq,
      sliderArm_body0] at h1
    simp [squaredNorm, sliderState0, Matrix.dotProduct, Fin.sum_univ_succ,
      vec6_val_five] at h1
    norm_num at h1

/-- The run with the tool offset `translate 1 0 0`: the seed is at the target,
one pass, ending at the seed. -/
theorem sliderArm_final0_offset :
    dlsFinal sliderArm (0, 0) [0] [0] (translate 1 0 0) (translate 1 0 0)
      = sliderState0 0 0 1 := by
  unfold dlsFinal
  rw [sliderArm_init0,
    dlsLoop_eq_iterate sliderArm [0] (translate 1 0 0) (translate 1 0 0) (5 / 100)
      (1 / 1000) 100 0]
  · simp only [Function.iterate_succ, Function.iterate_zero, Function.comp_apply, id_eq,
      sliderArm_body0]
    norm_num
  · intro i hi
    omega
  · intro h
    have h1 := h.1
    simp only [Function.iterate_succ, Function.iterate_zero, Function.comp_apply, id_eq,
      sliderArm_body0] at h1
    simp [squaredNorm, sliderState0, Matrix.dotProduct, Fin.sum_univ_succ,
      vec6_val_five] at h1
    norm_num at h1

/-- With every name registered, the name-based solver is the index-based one
on the resolved indices with the identity as tool offset, whatever `finalTF`
was passed. -/
theorem dampedLeastSquaresIK_chain_names_eq_chain_identity {K Robot : Type}
    [LinearOrderedField K] (M : Kinematics K Robot) (robot : Robot)
    (jointNames : List String) (jointValues : VectorXd K) (target finalTF : TRANSFORM K)
    (h : ∀ n ∈ jointNames, (M.jointNameToIndex_ robot n).isSome) :
    dampedLeastSquaresIK_chain_names M robot jointNames jointValues target finalTF
      = dampedLeastSquaresIK_chain M robot
          (jointNames.map (fun n => (M.jointNameToIndex_ robot n).getD 0)) jointValues target
          TRANSFORM.Identity := by
  simp [dampedLeastSquaresIK_chain_names, jointNamesToIndices_solved _ _ h]

/-- C5 fails: on the two-joint robot, with `joint_0` registered, seed `[0]`,
target `(1, 0, 0)` and tool offset `(1, 0, 0)`, the index-based solver starts
at the target and returns the seed `[0]`, while the name-based solver drops
the tool offset and returns `[160800 / 160801]`. -/
theorem dampedLeastSquaresIK_chain_names_drops_finalTF :
    sliderArm.jointNameToIndex_ (0, 0) "joint_0" = some 0
    ∧ dampedLeastSquaresIK_chain_names sliderArm (0, 0) ["joint_0"] [0] (translate 1 0 0)
          (translate 1 0 0)
        = ⟨rk_result_t.RK_SOLVED, [160800 / 160801], (160800 / 160801, 0)⟩
    ∧ dampedLeastSquaresIK_chain sliderArm (0, 0) [0] [0] (translate 1 0 0)
          (translate 1 0 0)
        = ⟨rk_result_t.RK_SOLVED, [0], (0, 0)⟩ := by
  have hreg : sliderArm.jointNameToIndex_ (0, 0) "joint_0" = some 0 := by
    simp [sliderArm, slider]
  refine ⟨hreg, ?_, ?_⟩
  · rw [dampedLeastSquaresIK_chain_names_eq_chain_identity sliderArm (0, 0) ["joint_0"] [0]
      (translate 1 0 0) (translate 1 0 0)
      (by intro n hn; rw [List.mem_singleton] at hn; subst hn; rw [hreg]; rfl)]
    simp only [List.map_cons, List.map_nil, hreg, Option.getD_some,
      dampedLeastSquaresIK_chain, sliderArm_final0_identity, sliderState0]
    norm_num
  · simp only [dampedLeastSquaresIK_chain, sliderArm_final0_offset, sliderState0]
    norm_num

end SliderRun

/-! ## Mass and centre of mass -/

section Mass

variable {K : Type} [LinearOrderedField K]

theorem vdiv_zero (com : TRANSLATION K) : vdiv com 0 = none := by
  simp [vdiv]

theorem vdiv_of_ne_zero (com : TRANSLATION K) (mass : K) (h : mass ≠ 0) :
    vdiv com mass = some (mass⁻¹ • com) := by
  simp [vdiv, h]

/-- The value `Robot::centerOfMass` computes for the frames WORLD and ROBOT:
the contributions of the linkages plus the COM of the root link, not weighted
by its mass, over `Robot::mass()`. -/
theorem Robot_centerOfMass_world_robot (r : RobotLinks K) :
    Robot_centerOfMass r FrameType.WORLD
        = vdiv (((List.range' 0 r.nLinkages).map
              (fun i => Linkage_centerOfMass (r.linkage i) FrameType.WORLD)).sum
            + r.respectToWorld.apply r.rootLink.com) (Robot_mass r)
    ∧ Robot_centerOfMass r FrameType.ROBOT
        = vdiv (((List.range' 0 r.nLinkages).map
              (fun i => Linkage_centerOfMass (r.linkage i) FrameType.ROBOT)).sum
            + r.rootLink.com) (Robot_mass r) := by
  constructor <;> simp [Robot_centerOfMass]

/-- C11 fails for the base link: a robot that is only a root link of mass 2
with COM `(1, 0, 0)`.  `Robot::centerOfMass(ROBOT)` adds `rootLink.com()`
without the mass and returns `(1/2, 0, 0)`; the mass-weighted mean of the
claim is `(1, 0, 0)`. -/
theorem Robot_centerOfMass_base_not_weighted :
    Robot_mass (baseOnlyRobot 2 ![1, 0, 0]) = 2
    ∧ Robot_centerOfMass (baseOnlyRobot 2 ![1, 0, 0]) FrameType.ROBOT
        = some ![1 / 2, 0, 0]
    ∧ Robot_centerOfMass_weighted (baseOnlyRobot 2 ![1, 0, 0]) FrameType.ROBOT
        = some ![1, 0, 0] := by
  refine ⟨?_, ?_, ?_⟩
  · simp [Robot_mass, baseOnlyRobot, pointLink]
  · simp [Robot_centerOfMass, Robot_mass, baseOnlyRobot, pointLink, vdiv]
  · simp [Robot_centerOfMass_weighted, Robot_mass, baseOnlyRobot, pointLink, vdiv]

/-- C12: `Robot::mass()` is the sum of the masses of all joints of all
linkages, plus the sum of the tool masses of all linkages, plus the mass of
the root link; every joint `(linkage, index)`, every tool and the root link
occurs once. -/
theorem Robot_mass_eq_sum_of_bodies (r : RobotLinks K) :
    Robot_mass r
      = ((List.range' 0 r.nLinkages).map (fun l =>
            ((List.range' 0 (r.linkage l).nJoints).map
              (fun i => ((r.linkage l).joint i).mass)).sum)).sum
        + ((List.range' 0 r.nLinkages).map (fun l => (r.linkage l).tool.mass)).sum
        + r.rootLink.mass := by
  simp only [Robot_mass, Linkage_mass, List.sum_map_add]

theorem Robot_mass_indices_joint (r : RobotLinks K) (indices : List Nat) :
    Robot_mass_indices r indices FrameType.JOINT
      = (indices.map (fun i => (r.joint i).mass)).sum + r.rootLink.mass := by
  simp [Robot_mass_indices]

/-- C13, as the code has it: the scoped mass of a joint list is the sum of the
masses of the listed joints plus the mass of the root link, so
`mass(A ++ B, JOINT)` and `mass(A, JOINT) + mass(B, JOINT)` differ by the mass
of the root link. -/
theorem Robot_mass_indices_append (r : RobotLinks K) (A B : List Nat) :
    Robot_mass_indices r (A ++ B) FrameType.JOINT + r.rootLink.mass
      = Robot_mass_indices r A FrameType.JOINT + Robot_mass_indices r B FrameType.JOINT := by
  simp only [Robot_mass_indices_joint, List.map_append, List.sum_append]
  ring

/-- C13 fails when the root link has mass: with joints of mass 1 and 2 and a
root link of mass 1, `mass([0, 1], JOINT)` is 4 while
`mass([0], JOINT) + mass([1], JOINT)` is 5. -/
theorem Robot_mass_indices_not_additive :
    List.Disjoint [0] [1]
    ∧ Robot_mass_indices twoJointRobot ([0] ++ [1]) FrameType.JOINT = 4
    ∧ Robot_mass_indices twoJointRobot [0] FrameType.JOINT
        + Robot_mass_indices twoJointRobot [1] FrameType.JOINT = 5 := by
  refine ⟨by simp, ?_, ?_⟩
  · simp [Robot_mass_indices, twoJointRobot, twoJointLinks, pointLink]
    norm_num
  · simp [Robot_mass_indices, twoJointRobot, twoJointLinks, pointLink]
    norm_num

theorem Linkage_mass_indices_append (L : LinkageLinks K) (A B : List Nat) :
    Linkage_mass_indices L (A ++ B) false
      = Linkage_mass_indices L A false + Linkage_mass_indices L B false := by
  simp [Linkage_mass_indices]

/-- C14: for index lists `A` and `B` whose masses `m_A`, `m_B` and
`m_A + m_B` are not zero, the centre of mass of `A ++ B` (tool excluded) is
`(m_A · c_A + m_B · c_B) / (m_A + m_B)`, where `c_A` and `c_B` are the centres
of mass the same function returns for `A` and for `B`. -/
theorem Linkage_centerOfMass_indices_append (L : LinkageLinks K) (A B : List Nat)
    (withRespectTo : FrameType)
    (hA : Linkage_mass_indices L A false ≠ 0) (hB : Linkage_mass_indices L B false ≠ 0)
    (hAB : Linkage_mass_indices L A false + Linkage_mass_indices L B false ≠ 0) :
    ∃ cA cB : TRANSLATION K,
      Linkage_centerOfMass_indices L A false withRespectTo = some cA
      ∧ Linkage_centerOfMass_indices L B false withRespectTo = some cB
      ∧ Linkage_centerOfMass_indices L (A ++ B) false withRespectTo
          = some ((Linkage_mass_indices L A false + Linkage_mass_indices L B false)⁻¹
              • (Linkage_mass_indices L A false • cA
                  + Linkage_mass_indices L B false • cB)) := by
  refine ⟨_, _, vdiv_of_ne_zero _ _ hA, vdiv_of_ne_zero _ _ hB, ?_⟩
  have hm := Linkage_mass_indices_append L A B
  simp only [Linkage_centerOfMass_indices, Bool.false_eq_true, if_false]
  rw [hm, vdiv_of_ne_zero _ _ hAB, smul_smul, smul_smul, mul_inv_cancel₀ hA,
    mul_inv_cancel₀ hB, one_smul, one_smul, List.map_append, List.sum_append]

theorem Linkage_centerOfMass_indices_append_witness :
    Linkage_mass_indices twoJointLinks [0] false ≠ 0
    ∧ Linkage_mass_indices twoJointLinks [1] false ≠ 0
    ∧ Linkage_mass_indices twoJointLinks [0] false
        + Linkage_mass_indices twoJointLinks [1] false ≠ 0
    ∧ ∃ cA cB : TRANSLATION ℚ,
      Linkage_centerOfMass_indices twoJointLinks [0] false FrameType.WORLD = some cA
      ∧ Linkage_centerOfMass_indices twoJointLinks [1] false FrameType.WORLD = some cB
      ∧ Linkage_centerOfMass_indices twoJointLinks ([0] ++ [1]) false FrameType.WORLD
          = some ((Linkage_mass_indices twoJointLinks [0] false
                + Linkage_mass_indices twoJointLinks [1] false)⁻¹
              • (Linkage_mass_indices twoJointLinks [0] false • cA
                  + Linkage_mass_indices twoJointLinks [1] false • cB)) :=
  have hA : Linkage_mass_indices twoJointLinks [0] false ≠ 0 := by
    simp [Linkage_mass_indices, twoJointLinks, pointLink]
  have hB : Linkage_mass_indices twoJointLinks [1] false ≠ 0 := by
    simp [Linkage_mass_indices, twoJointLinks, pointLink]
  have hAB : Linkage_mass_indices twoJointLinks [0] false
      + Linkage_mass_indices twoJointLinks [1] false ≠ 0 := by
    simp [Linkage_mass_indices, twoJointLinks, pointLink]
    norm_num
  ⟨hA, hB, hAB,
    Linkage_centerOfMass_indices_append twoJointLinks [0] [1] FrameType.WORLD hA hB hAB⟩

/-- For a tag other than WORLD and ROBOT, `Robot::centerOfMass` prints the
error and then still divides the sum of the linkage contributions by the
mass. -/
theorem Robot_centerOfMass_other_tag (r : RobotLinks K) (withRespectTo : FrameType)
    (hW : withRespectTo ≠ FrameType.WORLD) (hR : withRespectTo ≠ FrameType.ROBOT) :
    Robot_centerOfMass r withRespectTo
      = vdiv ((List.range' 0 r.nLinkages).map
            (fun i => Linkage_centerOfMass (r.linkage i) withRespectTo)).sum
          (Robot_mass r) := by
  simp [Robot_centerOfMass, hW, hR]

/-- C15 fails: for the tag JOINT, which is neither WORLD nor ROBOT,
`Robot::centerOfMass` does not return the zero vector.  On a robot of total
mass zero it divides zero by zero; on the robot `twoJointRobot` it returns
`(1/4, 1/2, 0)`, the sum of the joint contributions over the mass 4. -/
theorem Robot_centerOfMass_invalid_tag_not_zero :
    Robot_centerOfMass (baseOnlyRobot 0 0) FrameType.JOINT = none
    ∧ Robot_centerOfMass twoJointRobot FrameType.JOINT = some ![1 / 4, 1 / 2, 0] := by
  constructor
  · simp [Robot_centerOfMass, Robot_mass, baseOnlyRobot, pointLink, vdiv]
  · simp [Robot_centerOfMass, Robot_mass, Linkage_centerOfMass, Linkage_mass, twoJointRobot,
      twoJointLinks, pointLink, vdiv, List.range']
    norm_num

/-- C16 fails: with total mass zero the centre-of-mass functions do divide by
the mass.  For every linkage the index-list overload on an empty list without
the tool divides zero by zero, and so do both `Robot::centerOfMass` overloads
on a robot that is only a massless root link. -/
theorem centerOfMass_divides_by_zero_mass :
    (∀ (L : LinkageLinks ℚ) (withRespectTo : FrameType),
      Linkage_mass_indices L [] false = 0
      ∧ Linkage_centerOfMass_indices L [] false withRespectTo = none)
    ∧ (∀ (c : TRANSLATION ℚ) (withRespectTo : FrameType),
      Robot_mass (baseOnlyRobot 0 c) = 0
      ∧ Robot_centerOfMass (baseOnlyRobot 0 c) withRespectTo = none
      ∧ Robot_centerOfMass_indices (baseOnlyRobot 0 c) [] FrameType.JOINT withRespectTo
          = none) := by
  constructor
  · intro L withRespectTo
    simp [Linkage_centerOfMass_indices, Linkage_mass_indices, vdiv]
  · intro c withRespectTo
    simp [Robot_centerOfMass, Robot_centerOfMass_indices, Robot_mass_indices, Robot_mass,
      baseOnlyRobot, pointLink, vdiv]

/-- C17 fails: on a linkage of two joints with contributions `(1, 0, 0)` and
`(0, 2, 0)`, `centerOfMass(0, 1)` is their sum `(1, 2, 0)`, but
`centerOfMass(1, 0)` runs the loop `for(i=toJoint; i<=toJoint; i++)` once and
is `(1, 0, 0)`, the contribution of joint 0 alone. -/
theorem Linkage_centerOfMass_fromTo_not_symmetric :
    Linkage_centerOfMass_fromTo twoJointLinks 0 1 FrameType.WORLD = ![1, 2, 0]
    ∧ Linkage_centerOfMass_fromTo twoJointLinks 1 0 FrameType.WORLD = ![1, 0, 0] := by
  constructor
  · simp [Linkage_centerOfMass_fromTo, twoJointLinks, pointLink, List.range']
  · simp [Linkage_centerOfMass_fromTo, twoJointLinks, pointLink, List.range']

end Mass

/-! ## Ordering of the linkages -/

section Ordering

theorem mem_pairsOf (parentIndices : List Int) (x : indexParentIndexPair) :
    x ∈ pairsOf parentIndices
      ↔ x.I < parentIndices.length ∧ x.pI = parentOf parentIndices x.I := by
  simp only [pairsOf, List.mem_map, List.mem_range]
  constructor
  · rintro ⟨i, hi, rfl⟩
    exact ⟨hi, rfl⟩
  · rintro ⟨hi, hp⟩
    refine ⟨x.I, hi, ?_⟩
    cases x
    simp_all

theorem mem_stableSortPairs (pairs : List indexParentIndexPair) (x : indexParentIndexPair) :
    x ∈ stableSortPairs pairs ↔ x ∈ pairs :=
  (List.perm_insertionSort _ pairs).mem_iff

theorem stableSortPairs_sorted (pairs : List indexParentIndexPair) :
    (stableSortPairs pairs).Pairwise (fun a b => a.pI ≤ b.pI) := by
  haveI : IsTotal indexParentIndexPair (fun a b => b.lt a = false) :=
    ⟨fun a b => by
      simp only [indexParentIndexPair.lt, decide_eq_false_iff_not, not_lt]
      exact le_total a.pI b.pI⟩
  haveI : IsTrans indexParentIndexPair (fun a b => b.lt a = false) :=
    ⟨fun a b c => by
      simp only [indexParentIndexPair.lt, decide_eq_false_iff_not, not_lt]
      exact le_trans⟩
  have h := List.sorted_insertionSort (fun a b : indexParentIndexPair => b.lt a = false) pairs
  refine List.Pairwise.imp ?_ h
  intro a b hab
  simpa [indexParentIndexPair.lt] using hab

/-- In a list sorted by parent index, a strictly smaller parent index stands
at an earlier position. -/
theorem position_lt_of_pI_lt (out : List indexParentIndexPair)
    (hs : out.Pairwise (fun a b => a.pI ≤ b.pI)) (i j : Fin out.length)
    (h : out[i].pI < out[j].pI) : i < j := by
  by_contra hij
  have hji : j ≤ i := not_lt.mp hij
  rcases Fin.eq_or_lt_of_le hji with heq | hlt
  · subst heq
    exact lt_irrefl _ h
  · have := List.pairwise_iff_getElem.mp hs j.val i.val j.isLt i.isLt hlt
    exact absurd h (not_lt.mpr this)

theorem stableSortPairs_baseRootedFirst (parentIndices : List Int)
    (hvalid : ∀ i, i < parentIndices.length → -1 ≤ parentOf parentIndices i) :
    BaseRootedFirst (stableSortPairs (pairsOf parentIndices)) := by
  intro i j hi hj
  apply position_lt_of_pI_lt _ (stableSortPairs_sorted _)
  have hmem : (stableSortPairs (pairsOf parentIndices))[j] ∈ pairsOf parentIndices :=
    (mem_stableSortPairs _ _).mp (List.getElem_mem _)
  obtain ⟨hlen, hp⟩ := (mem_pairsOf _ _).mp hmem
  have := hvalid _ hlen
  rw [← hp] at this
  rw [hi]
  exact lt_of_le_of_ne this (Ne.symm hj)

/-- The position of a linkage relative to its parent after the sort: after
the parent when the parent's own parent index is smaller than the parent's
index. -/
theorem stableSortPairs_after_parent (parentIndices : List Int)
    (j : Fin (stableSortPairs (pairsOf parentIndices)).length)
    (hp : 0 ≤ (stableSortPairs (pairsOf parentIndices))[j].pI)
    (hlen : (stableSortPairs (pairsOf parentIndices))[j].pI < parentIndices.length)
    (hpp : parentOf parentIndices (stableSortPairs (pairsOf parentIndices))[j].pI.toNat
      < (stableSortPairs (pairsOf parentIndices))[j].pI) :
    ∃ i : Fin (stableSortPairs (pairsOf parentIndices)).length,
      i < j ∧ ((stableSortPairs (pairsOf parentIndices))[i].I : Int)
        = (stableSortPairs (pairsOf parentIndices))[j].pI := by
  have hq : (stableSortPairs (pairsOf parentIndices))[j].pI.toNat < parentIndices.length := by
    omega
  have hy : (⟨(stableSortPairs (pairsOf parentIndices))[j].pI.toNat,
      parentOf parentIndices (stableSortPairs (pairsOf parentIndices))[j].pI.toNat⟩ :
      indexParentIndexPair) ∈ stableSortPairs (pairsOf parentIndices) :=
    (mem_stableSortPairs _ _).mpr ((mem_pairsOf _ _).mpr ⟨hq, rfl⟩)
  obtain ⟨i, hi, hiy⟩ := List.mem_iff_getElem.mp hy
  refine ⟨⟨i, hi⟩, ?_, ?_⟩
  · apply position_lt_of_pI_lt _ (stableSortPairs_sorted _)
    show (stableSortPairs (pairsOf parentIndices))[i].pI < _
    rw [hiy]
    exact hpp
  · show ((stableSortPairs (pairsOf parentIndices))[i].I : Int) = _
    rw [hiy]
    exact Int.toNat_of_nonneg hp

/-- C18, as the sort has it: for a parent-index vector that describes a
rooted tree, the stable sort by `operator<` puts the linkages attached to the
base first, and puts a linkage after its parent whenever the parent's own
parent index is smaller than the parent's index; hence every linkage stands
after its parent when each parent index is smaller than the index of the
linkage itself. -/
theorem stableSortPairs_order_of_rootedTree (parentIndices : List Int)
    (htree : IsRootedTree parentIndices) :
    BaseRootedFirst (stableSortPairs (pairsOf parentIndices))
    ∧ (∀ j : Fin (stableSortPairs (pairsOf parentIndices)).length,
        0 ≤ (stableSortPairs (pairsOf parentIndices))[j].pI →
        parentOf parentIndices (stableSortPairs (pairsOf parentIndices))[j].pI.toNat
          < (stableSortPairs (pairsOf parentIndices))[j].pI →
        ∃ i : Fin (stableSortPairs (pairsOf parentIndices)).length,
          i < j ∧ ((stableSortPairs (pairsOf parentIndices))[i].I : Int)
            = (stableSortPairs (pairsOf parentIndices))[j].pI)
    ∧ ((∀ i, i < parentIndices.length → parentOf parentIndices i < i) →
        AppearsAfterParent (stableSortPairs (pairsOf parentIndices))) := by
  have hlen : ∀ j : Fin (stableSortPairs (pairsOf parentIndices)).length,
      0 ≤ (stableSortPairs (pairsOf parentIndices))[j].pI →
      (stableSortPairs (pairsOf parentIndices))[j].pI < parentIndices.length := by
    intro j hj
    have hmem : (stableSortPairs (pairsOf parentIndices))[j] ∈ pairsOf parentIndices :=
      (mem_stableSortPairs _ _).mp (List.getElem_mem _)
    obtain ⟨hI, hp⟩ := (mem_pairsOf _ _).mp hmem
    rcases (htree _ hI).1 with h | h
    · rw [hp, h] at hj
      omega
    · rw [hp]
      exact h.2.1
  refine ⟨?_, ?_, ?_⟩
  · apply stableSortPairs_baseRootedFirst
    intro i hi
    rcases (htree i hi).1 with h | h
    · rw [h]
    · omega
  · intro j hj hpp
    exact stableSortPairs_after_parent parentIndices j hj (hlen j hj) hpp
  · intro hsmall j hj
    apply stableSortPairs_after_parent parentIndices j hj (hlen j hj)
    have hq := hlen j hj
    have := hsmall (stableSortPairs (pairsOf parentIndices))[j].pI.toNat (by omega)
    omega

theorem stableSortPairs_order_of_rootedTree_witness :
    IsRootedTree [-1, 0, 0, 1]
    ∧ BaseRootedFirst (stableSortPairs (pairsOf [-1, 0, 0, 1]))
    ∧ ((∀ i, i < [(-1 : Int), 0, 0, 1].length → parentOf [-1, 0, 0, 1] i < i) →
        AppearsAfterParent (stableSortPairs (pairsOf [-1, 0, 0, 1]))) :=
  have h : IsRootedTree [-1, 0, 0, 1] := by
    unfold IsRootedTree
    decide
  ⟨h, (stableSortPairs_order_of_rootedTree [-1, 0, 0, 1] h).1,
    (stableSortPairs_order_of_rootedTree [-1, 0, 0, 1] h).2.2⟩

/-- C18 fails: the parent-index vector `[1, -1, 0]` describes a rooted tree
(linkage 1 on the base, linkage 0 on linkage 1, linkage 2 on linkage 0); the
stable sort by parent index gives the order 1, 2, 0, in which linkage 2 stands
before its parent 0. -/
theorem stableSortPairs_not_after_parent :
    IsRootedTree [1, -1, 0]
    ∧ stableSortPairs (pairsOf [1, -1, 0]) = [⟨1, -1⟩, ⟨2, 0⟩, ⟨0, 1⟩]
    ∧ ¬ AppearsAfterParent (stableSortPairs (pairsOf [1, -1, 0])) := by
  refine ⟨?_, by decide, ?_⟩
  · unfold IsRootedTree
    decide
  · unfold AppearsAfterParent
    decide

end Ordering

/-! ## Pseudoinverse -/

section Pinv

variable {K : Type} [LinearOrderedField K]

theorem pinv_flip_eq_false : pinv_flip = false := by
  decide

theorem pinv_eq_fromSVD (svd : (m n : Nat) → Matrix (Fin m) (Fin n) K → JacobiSVD K m n)
    {m n : Nat} (b : Matrix (Fin m) (Fin n) K) :
    pinv svd b = pinv_fromSVD (svd m n b) := by
  simp [pinv, pinv_flip_eq_false]

/-- C19 fails: the test is made on the empty matrix `a`, so `flip` is false
for every input and the decomposition is always computed on `b` itself, also
for an input with fewer rows than columns such as a 1×2 matrix, where the test
on the input would give true. -/
theorem pinv_never_flips (svd : (m n : Nat) → Matrix (Fin m) (Fin n) K → JacobiSVD K m n)
    {m n : Nat} (b : Matrix (Fin m) (Fin n) K) :
    pinv_flip = false
    ∧ pinv svd b = pinv_fromSVD (svd m n b)
    ∧ pinv_flip_on_input 1 2 = true := by
  exact ⟨pinv_flip_eq_false, pinv_eq_fromSVD svd b, by decide⟩

theorem castLE_injective {r m : Nat} (h : r ≤ m) : Function.Injective (Fin.castLE h) := by
  intro a b hab
  have := congrArg Fin.val hab
  exact Fin.ext this

theorem pseudoInvertedSingular_mul_mul (σ : K) :
    pseudoInvertedSingular σ * σ * pseudoInvertedSingular σ = pseudoInvertedSingular σ := by
  unfold pseudoInvertedSingular
  by_cases h : |σ| ≤ 1 / 10 ^ 10
  · simp only [h, if_true, mul_zero]
  · have hpos : (0 : K) < 1 / 10 ^ 10 := by positivity
    have hne : σ ≠ 0 := by
      intro h0
      apply h
      rw [h0, abs_zero]
      exact hpos.le
    simp only [h, if_false]
    field_simp

theorem mul_pseudoInvertedSingular_mul (σ : K) (h0 : 0 ≤ σ)
    (h : ¬ (0 < σ ∧ σ ≤ 1 / 10 ^ 10)) :
    σ * pseudoInvertedSingular σ * σ = σ := by
  unfold pseudoInvertedSingular
  by_cases hz : σ = 0
  · rw [hz]
    simp only [zero_mul]
  · have hpos : 0 < σ := lt_of_le_of_ne h0 (Ne.symm hz)
    have hgt : ¬ |σ| ≤ 1 / 10 ^ 10 := by
      rw [abs_of_nonneg h0]
      intro hle
      exact h ⟨hpos, hle⟩
    simp only [hgt, if_false]
    field_simp

/-- Orthonormal columns in the middle cancel:
`(L · D₁ · Mᵀ) · (M · D₂ · R) = L · (D₁ D₂) · R` when `Mᵀ M = 1`. -/
theorem mul_diagonal_mul_cancel {α β γ ρ : Type} [Fintype α] [Fintype β] [Fintype γ]
    [Fintype ρ] [DecidableEq ρ] (L : Matrix α ρ K) (M : Matrix γ ρ K) (R : Matrix ρ β K)
    (a b : ρ → K) (hM : Mᵀ * M = 1) :
    (L * Matrix.diagonal a * Mᵀ) * (M * Matrix.diagonal b * R)
      = L * Matrix.diagonal (fun i => a i * b i) * R := by
  calc (L * Matrix.diagonal a * Mᵀ) * (M * Matrix.diagonal b * R)
      = L * Matrix.diagonal a * (Mᵀ * M) * Matrix.diagonal b * R := by
        simp only [Matrix.mul_assoc]
    _ = L * (Matrix.diagonal a * Matrix.diagonal b) * R := by
        rw [hM, Matrix.mul_one]
        simp only [Matrix.mul_assoc]
    _ = L * Matrix.diagonal (fun i => a i * b i) * R := by
        rw [Matrix.diagonal_mul_diagonal]

theorem thin_matrixU_orthonormal {m r : Nat} (h : r ≤ m) (U : Matrix (Fin m) (Fin m) K)
    (hU : Uᵀ * U = 1) :
    (U.submatrix id (Fin.castLE h))ᵀ * U.submatrix id (Fin.castLE h) = 1 := by
  rw [Matrix.transpose_submatrix,
    ← Matrix.submatrix_mul Uᵀ U (Fin.castLE h) id (Fin.castLE h) Function.bijective_id, hU]
  exact Matrix.submatrix_one _ (castLE_injective h)

theorem pinv_fromSVD_eq {m n : Nat} (s : JacobiSVD K m n) :
    pinv_fromSVD s
      = s.matrixV
          * Matrix.diagonal (fun i => pseudoInvertedSingular (s.singularValues i))
          * (s.matrixU.submatrix id (Fin.castLE (Nat.min_le_left m n)))ᵀ := by
  rw [Matrix.transpose_submatrix]
  rfl

theorem pinv_fromSVD_moorePenrose {m n : Nat} (A : Matrix (Fin m) (Fin n) K)
    (s : JacobiSVD K m n) (hsvd : IsSVD A s)
    (hgap : ∀ i, ¬ (0 < s.singularValues i ∧ s.singularValues i ≤ 1 / 10 ^ 10)) :
    IsMoorePenrose A (pinv_fromSVD s) := by
  obtain ⟨hU, hV, hnn, hA⟩ := hsvd
  have hP := thin_matrixU_orthonormal (Nat.min_le_left m n) s.matrixU hU
  have hAX : A * pinv_fromSVD s
      = s.matrixU.submatrix id (Fin.castLE (Nat.min_le_left m n))
          * Matrix.diagonal (fun i => s.singularValues i
              * pseudoInvertedSingular (s.singularValues i))
          * (s.matrixU.submatrix id (Fin.castLE (Nat.min_le_left m n)))ᵀ := by
    rw [pinv_fromSVD_eq, hA]
    exact mul_diagonal_mul_cancel _ _ _ _ _ hV
  have hXA : pinv_fromSVD s * A
      = s.matrixV
          * Matrix.diagonal (fun i => pseudoInvertedSingular (s.singularValues i)
              * s.singularValues i)
          * s.matrixVᵀ := by
    rw [pinv_fromSVD_eq, hA]
    exact mul_diagonal_mul_cancel _ _ _ _ _ hP
  refine ⟨?_, ?_, ?_, ?_⟩
  · rw [hAX]
    conv_lhs => rw [hA]
    rw [mul_diagonal_mul_cancel _ _ _ _ _ hP]
    conv_rhs => rw [hA]
    have hd : (fun i => s.singularValues i * pseudoInvertedSingular (s.singularValues i)
        * s.singularValues i) = s.singularValues :=
      funext (fun i => mul_pseudoInvertedSingular_mul _ (hnn i) (hgap i))
    rw [hd]
  · rw [hXA]
    conv_lhs => rw [pinv_fromSVD_eq]
    rw [mul_diagonal_mul_cancel _ _ _ _ _ hV, pinv_fromSVD_eq]
    have hd : (fun i => pseudoInvertedSingular (s.singularValues i) * s.singularValues i
        * pseudoInvertedSingular (s.singularValues i))
        = fun i => pseudoInvertedSingular (s.singularValues i) :=
      funext (fun i => pseudoInvertedSingular_mul_mul _)
    rw [hd]
  · rw [hAX]
    simp only [Matrix.transpose_mul, Matrix.diagonal_transpose, Matrix.transpose_transpose,
      Matrix.mul_assoc]
  · rw [hXA]
    simp only [Matrix.transpose_mul, Matrix.diagonal_transpose, Matrix.transpose_transpose,
      Matrix.mul_assoc]

/-- C20: `pinv` returns `V · Σ⁺ · Uᵀ` (with the first `min m n` columns of
`U`), where `Σ⁺` holds `1/σᵢ` for a singular value with `|σᵢ| > 1e-10` and 0
for every other one; and when the decomposition handed back by the SVD driver
is a singular value decomposition of the input and no singular value lies in
`(0, 1e-10]`, this result satisfies the four Moore–Penrose conditions. -/
theorem pinv_eq_V_pinvSigma_Ut_moorePenrose
    (svd : (m n : Nat) → Matrix (Fin m) (Fin n) K → JacobiSVD K m n) {m n : Nat}
    (b : Matrix (Fin m) (Fin n) K) (hsvd : IsSVD b (svd m n b)) :
    pinv svd b
        = (svd m n b).matrixV
            * Matrix.diagonal
                (fun i => pseudoInvertedSingular ((svd m n b).singularValues i))
            * ((svd m n b).matrixU.submatrix id (Fin.castLE (Nat.min_le_left m n)))ᵀ
    ∧ (∀ σ : K, (1 / 10 ^ 10 < |σ| → pseudoInvertedSingular σ = 1 / σ)
        ∧ (|σ| ≤ 1 / 10 ^ 10 → pseudoInvertedSingular σ = 0))
    ∧ ((∀ i, ¬ (0 < (svd m n b).singularValues i
            ∧ (svd m n b).singularValues i ≤ 1 / 10 ^ 10)) →
        IsMoorePenrose b (pinv svd b)) := by
  refine ⟨?_, ?_, ?_⟩
  · rw [pinv_eq_fromSVD, pinv_fromSVD_eq]
  · intro σ
    constructor
    · intro h
      unfold pseudoInvertedSingular
      rw [if_neg (not_le.mpr h)]
    · intro h
      unfold pseudoInvertedSingular
      rw [if_pos h]
  · intro hgap
    rw [pinv_eq_fromSVD]
    exact pinv_fromSVD_moorePenrose b _ hsvd hgap

theorem diagonalSVD_singularValues (n : Nat) (d : Fin n → ℚ) :
    (diagonalSVD n n (Matrix.diagonal d)).singularValues
      = d ∘ (finCongr (Nat.min_self n)) := by
  funext i
  simp only [diagonalSVD, Function.comp_apply]
  exact Matrix.diagonal_apply_eq d _

theorem diagonalSVD_isSVD (n : Nat) (d : Fin n → ℚ) (hd : ∀ i, 0 ≤ d i) :
    IsSVD (Matrix.diagonal d) (diagonalSVD n n (Matrix.diagonal d)) := by
  refine ⟨?_, ?_, ?_, ?_⟩
  · simp [diagonalSVD]
  · exact thin_matrixU_orthonormal (Nat.min_le_right n n) 1 (by simp)
  · intro i
    rw [diagonalSVD_singularValues]
    exact hd _
  · rw [diagonalSVD_singularValues]
    show Matrix.diagonal d
      = (1 : Matrix (Fin n) (Fin n) ℚ).submatrix id (finCongr (Nat.min_self n))
        * Matrix.diagonal (d ∘ (finCongr (Nat.min_self n)))
        * ((1 : Matrix (Fin n) (Fin n) ℚ).submatrix id (finCongr (Nat.min_self n)))ᵀ
    rw [← Matrix.submatrix_diagonal_equiv, Matrix.transpose_submatrix, Matrix.transpose_one,
      Matrix.submatrix_mul_equiv, Matrix.submatrix_mul_equiv]
    simp

theorem pinv_eq_V_pinvSigma_Ut_moorePenrose_witness :
    IsSVD (Matrix.diagonal ![2, 0]) (diagonalSVD 2 2 (Matrix.diagonal ![2, 0]))
    ∧ ((∀ i, ¬ (0 < (diagonalSVD 2 2 (Matrix.diagonal ![2, 0])).singularValues i
            ∧ (diagonalSVD 2 2 (Matrix.diagonal ![2, 0])).singularValues i ≤ 1 / 10 ^ 10)) →
        IsMoorePenrose (Matrix.diagonal ![2, 0]) (pinv diagonalSVD (Matrix.diagonal ![2, 0]))) :=
  have h : IsSVD (Matrix.diagonal ![2, 0]) (diagonalSVD 2 2 (Matrix.diagonal ![2, 0])) :=
    diagonalSVD_isSVD 2 ![2, 0] (by
      intro i
      fin_cases i <;> simp)
  ⟨h, (pinv_eq_V_pinvSigma_Ut_moorePenrose diagonalSVD (Matrix.diagonal ![2, 0]) h).2.2⟩

end Pinv

/-! ## Disabled chain solvers -/

section DisabledChain

theorem lookupJointNames_eq_none_iff (find : String → Option Nat) (names : List String) :
    lookupJointNames find names = none ↔ ∃ n ∈ names, find n = none := by
  induction names with
  | nil => simp [lookupJointNames]
  | cons n ns ih =>
    cases hn : find n with
    | none => simp [lookupJointNames, hn]
    | some j => simp [lookupJointNames, hn, ih]

theorem chain_names_not_ready_of_lookup {K Robot : Type} (find : String → Option Nat)
    (jointNames : List String) (jointValues : VectorXd K) (robot : Robot)
    (run : List Nat → IKOutcome K Robot)
    (hrun : ∀ is, run is = ⟨RK_SOLVER_NOT_READY, jointValues, robot⟩) :
    (match lookupJointNames find jointNames with
      | none => (⟨RK_INVALID_JOINT, jointValues, robot⟩ : IKOutcome K Robot)
      | some jointIndices => run jointIndices)
    = ⟨if ∃ n ∈ jointNames, find n = none then RK_INVALID_JOINT else RK_SOLVER_NOT_READY,
        jointValues, robot⟩ := by
  cases h : lookupJointNames find jointNames with
  | none =>
    have := (lookupJointNames_eq_none_iff find jointNames).1 h
    simp only [if_pos this]
  | some is =>
    have : ¬ ∃ n ∈ jointNames, find n = none := by
      intro hex
      rw [(lookupJointNames_eq_none_iff find jointNames).2 hex] at h
      cases h
    simp only [if_neg this, hrun]

variable {K : Type} [LinearOrderedField K] {Robot : Type}

/-- C21: for every input the index-based `selectivelyDampedLeastSquaresIK_chain`,
`pseudoinverseIK_chain` and `jacobianTransposeIK_chain` return
`RK_SOLVER_NOT_READY` with `jointValues` and the robot as they were; each
name-based overload returns `RK_INVALID_JOINT` when some name is missing from
`jointNameToIndex_` and `RK_SOLVER_NOT_READY` otherwise, again with
`jointValues` and the robot as they were. -/
theorem disabled_chain_solvers_return_not_ready (M : Kinematics K Robot) (robot : Robot)
    (jointIndices : List Nat) (jointNames : List String) (jointValues : VectorXd K)
    (target finalTF : TRANSFORM K) :
    selectivelyDampedLeastSquaresIK_chain robot jointIndices jointValues target finalTF
        = ⟨RK_SOLVER_NOT_READY, jointValues, robot⟩
    ∧ pseudoinverseIK_chain robot jointIndices jointValues target finalTF
        = ⟨RK_SOLVER_NOT_READY, jointValues, robot⟩
    ∧ jacobianTransposeIK_chain robot jointIndices jointValues target finalTF
        = ⟨RK_SOLVER_NOT_READY, jointValues, robot⟩
    ∧ selectivelyDampedLeastSquaresIK_chain_names M robot jointNames jointValues target finalTF
        = ⟨if ∃ n ∈ jointNames, M.jointNameToIndex_ robot n = none then RK_INVALID_JOINT
            else RK_SOLVER_NOT_READY, jointValues, robot⟩
    ∧ pseudoinverseIK_chain_names M robot jointNames jointValues target finalTF
        = ⟨if ∃ n ∈ jointNames, M.jointNameToIndex_ robot n = none then RK_INVALID_JOINT
            else RK_SOLVER_NOT_READY, jointValues, robot⟩
    ∧ jacobianTransposeIK_chain_names M robot jointNames jointValues target finalTF
        = ⟨if ∃ n ∈ jointNames, M.jointNameToIndex_ robot n = none then RK_INVALID_JOINT
            else RK_SOLVER_NOT_READY, jointValues, robot⟩ :=
  ⟨rfl, rfl, rfl,
    chain_names_not_ready_of_lookup _ jointNames jointValues robot _ (fun _ => rfl),
    chain_names_not_ready_of_lookup _ jointNames jointValues robot _ (fun _ => rfl),
    chain_names_not_ready_of_lookup _ jointNames jointValues robot _ (fun _ => rfl)⟩

/-- On the two-slider arm: one unregistered name gives `RK_INVALID_JOINT`, two
registered names give `RK_SOLVER_NOT_READY`; the joint values stay `[3, 4]`. -/
theorem disabled_chain_names_sliderArm :
    selectivelyDampedLeastSquaresIK_chain_names sliderArm (0, 0) ["joint_0", "elbow"] [3, 4]
        (translate 1 2 0) TRANSFORM.Identity = ⟨RK_INVALID_JOINT, [3, 4], (0, 0)⟩
    ∧ pseudoinverseIK_chain_names sliderArm (0, 0) ["joint_0", "joint_1"] [3, 4]
        (translate 1 2 0) TRANSFORM.Identity = ⟨RK_SOLVER_NOT_READY, [3, 4], (0, 0)⟩ := by
  constructor <;> rfl

end DisabledChain

/-! ## `clampMaxAbs` -/

section ClampMaxAbs

variable {K : Type} [LinearOrderedField K]

theorem clampMaxAbs_max_fold_ge (v : VectorXd K) (n : Nat) :
    ∀ i < n, v.getD i 0 ≤
      v.getD ((List.range n).foldl
        (fun max i => if v.getD i 0 > v.getD max 0 then i else max) 0) 0 := by
  induction n with
  | zero => intro i hi; omega
  | succ n ih =>
    intro i hi
    rw [List.range_succ, List.foldl_append, List.foldl_cons, List.foldl_nil]
    split
    · next hgt =>
      rcases Nat.lt_succ_iff_lt_or_eq.1 hi with h | h
      · exact (ih i h).trans hgt.le
      · rw [h]
    · next hle =>
      rcases Nat.lt_succ_iff_lt_or_eq.1 hi with h | h
      · exact ih i h
      · rw [h]; exact not_lt.1 hle

/-- The entry selected by the loop of `clampMaxAbs` is the largest signed
entry of `v`. -/
theorem clampMaxAbs_max_ge (v : VectorXd K) (x : K) (hx : x ∈ v) :
    x ≤ v.getD (clampMaxAbs_max v) 0 := by
  obtain ⟨i, hi, rfl⟩ := List.getElem_of_mem hx
  have := clampMaxAbs_max_fold_ge v v.length i hi
  rwa [List.getD_eq_getElem _ _ hi] at this

/-- What the code does guarantee: for a bound `c > 0` the result is finite
and every signed entry of it is at most `c`. -/
theorem clampMaxAbs_le (v : VectorXd K) (c : K) (hc : 0 < c) :
    ∃ w, clampMaxAbs v c = some w ∧ ∀ y ∈ w, y ≤ c := by
  unfold clampMaxAbs
  split
  · next hgt =>
    have hpos : 0 < v.getD (clampMaxAbs_max v) 0 := hc.trans hgt
    rw [if_neg hpos.ne']
    refine ⟨_, rfl, fun y hy => ?_⟩
    obtain ⟨x, hx, rfl⟩ := List.mem_map.1 hy
    have hle := clampMaxAbs_max_ge v x hx
    calc x * (c / v.getD (clampMaxAbs_max v) 0)
        ≤ v.getD (clampMaxAbs_max v) 0 * (c / v.getD (clampMaxAbs_max v) 0) :=
          mul_le_mul_of_nonneg_right hle (div_pos hc hpos).le
      _ = c := mul_div_cancel₀ c hpos.ne'
  · next hle =>
    exact ⟨v, rfl, fun y hy => (clampMaxAbs_max_ge v y hy).trans (not_lt.1 hle)⟩

/-- A vector whose entries all have absolute value at most `c ≥ 0` is left as
it is. -/
theorem clampMaxAbs_eq_self (v : VectorXd K) (c : K) (hc : 0 ≤ c)
    (h : ∀ x ∈ v, |x| ≤ c) : clampMaxAbs v c = some v := by
  unfold clampMaxAbs
  rw [if_neg]
  rw [not_lt, List.getD_eq_getElem?_getD]
  cases hm : v[clampMaxAbs_max v]? with
  | none => simpa using hc
  | some x =>
    have hx : x ∈ v := List.getElem?_mem hm
    simpa using (le_abs_self x).trans (h x hx)

/-- With a negative bound and largest entry 0 the factor is `clamp/0`: no
finite result. -/
theorem clampMaxAbs_zero_max_neg_clamp :
    clampMaxAbs ([0, -1] : VectorXd ℚ) (-1) = none := by
  have h : ¬ ((1 : ℚ) < 0) := by norm_num
  simp [clampMaxAbs, clampMaxAbs_max, List.range_succ, h]

end ClampMaxAbs

/-- C22: `clampMaxAbs` compares the signed entries, not their absolute values.
On `v = (-5, 1)` with bound 2 the largest signed entry is 1, nothing is scaled
and the entry -5 keeps absolute value 5 > 2; on `v = (-5, 3)` with bound 2 the
vector is scaled by 2/3 and the first entry becomes -10/3, of absolute value
above 2. -/
theorem clampMaxAbs_ignores_negative_entries :
    clampMaxAbs ([-5, 1] : VectorXd ℚ) 2 = some [-5, 1]
    ∧ ¬ (∀ w, clampMaxAbs ([-5, 1] : VectorXd ℚ) 2 = some w → ∀ y ∈ w, |y| ≤ 2)
    ∧ clampMaxAbs ([-5, 3] : VectorXd ℚ) 2 = some [-10 / 3, 2]
    ∧ ¬ (∀ w, clampMaxAbs ([-5, 3] : VectorXd ℚ) 2 = some w → ∀ y ∈ w, |y| ≤ 2) := by
  have h1 : clampMaxAbs ([-5, 1] : VectorXd ℚ) 2 = some [-5, 1] := by
    simp [clampMaxAbs, clampMaxAbs_max, List.range_succ]
    norm_num
  have h2 : clampMaxAbs ([-5, 3] : VectorXd ℚ) 2 = some [-10 / 3, 2] := by
    simp [clampMaxAbs, clampMaxAbs_max, List.range_succ]
    norm_num
  refine ⟨h1, ?_, h2, ?_⟩
  · intro h
    have := h _ h1 (-5) (by simp)
    norm_num [abs_le] at this
  · intro h
    have := h _ h2 (-10 / 3) (by simp)
    norm_num [abs_le] at this

/-! ## Range overloads of `Linkage::centerOfMass` and `Robot::mass` over all
linkages -/

section RangeOverloads

variable {K : Type} [LinearOrderedField K]

theorem vdiv_map_smul (com : TRANSLATION K) (m : K) (h : m ≠ 0) :
    (vdiv com m).map (fun c => m • c) = some com := by
  rw [vdiv_of_ne_zero com m h, Option.map_some', smul_smul, mul_inv_cancel₀ h, one_smul]

theorem vdiv_eq_none_iff (com : TRANSLATION K) (m : K) : vdiv com m = none ↔ m = 0 := by
  unfold vdiv
  split <;> simp [*]

theorem Linkage_mass_indices_all (L : LinkageLinks K) :
    Linkage_mass_indices L (List.range' 0 L.nJoints) true = Linkage_mass L := by
  simp [Linkage_mass_indices, Linkage_mass]

/-- The index-list overload over all joints with the tool divides the value of
the whole-linkage overload by `Linkage::mass()`. -/
theorem Linkage_centerOfMass_indices_all (L : LinkageLinks K) (ref : FrameType) :
    Linkage_centerOfMass_indices L (List.range' 0 L.nJoints) true ref
      = vdiv (Linkage_centerOfMass L ref) (Linkage_mass L) := by
  simp [Linkage_centerOfMass_indices, Linkage_centerOfMass, Linkage_mass_indices, Linkage_mass]

/-- For a valid `fromJoint` the index-list overload over `fromJoint ..
nJoints-1` divides the value of the range overload by the scoped mass. -/
theorem Linkage_centerOfMass_indices_fromJoint (L : LinkageLinks K) (fromJoint : Nat)
    (includeTool : Bool) (ref : FrameType) (h : fromJoint < L.nJoints) :
    Linkage_centerOfMass_indices L (List.range' fromJoint (L.nJoints - fromJoint))
        includeTool ref
      = vdiv (Linkage_centerOfMass_fromJoint L fromJoint includeTool ref)
          (Linkage_mass_indices L (List.range' fromJoint (L.nJoints - fromJoint))
            includeTool) := by
  simp [Linkage_centerOfMass_indices, Linkage_centerOfMass_fromJoint, h]

/-- Whenever the scoped mass is not zero, the index-list overload is the sum
of the listed contributions (with the tool's if `includeTool`) divided by that
mass. -/
theorem Linkage_centerOfMass_indices_of_mass_ne_zero (L : LinkageLinks K)
    (indices : List Nat) (includeTool : Bool) (ref : FrameType)
    (h : Linkage_mass_indices L indices includeTool ≠ 0) :
    Linkage_centerOfMass_indices L indices includeTool ref
      = some ((Linkage_mass_indices L indices includeTool)⁻¹ •
          ((indices.map (fun i => (L.joint i).centerOfMass ref)).sum
            + (if includeTool then L.tool.centerOfMass ref else 0))) := by
  unfold Linkage_centerOfMass_indices
  rw [vdiv_of_ne_zero _ _ h]
  cases includeTool <;> simp

/-- C23, with the preconditions the code needs: when `Linkage::mass()` is not
zero, `centerOfMass(ref)` is `mass()` times the index-list overload over all
joints with the tool; when `fromJoint < nJoints()` and the mass of joints
`fromJoint .. nJoints-1` (with the tool if `includeTool`) is not zero,
`centerOfMass(fromJoint, includeTool, ref)` is that mass times the index-list
overload over the same joints; when `fromJoint ≥ nJoints()` the range overload
returns the zero vector.  For every index list of non-zero scoped mass the
index-list overload is the sum of the listed contributions divided by that
mass, while the range overloads return the sum of the contributions as it is:
over all joints and the tool, and for a valid `fromJoint` over joints
`fromJoint .. nJoints-1` with the tool if `includeTool`. -/
theorem centerOfMass_range_eq_mass_smul_indices (L : LinkageLinks K) (fromJoint : Nat)
    (includeTool : Bool) (ref : FrameType) :
    (Linkage_mass L ≠ 0 →
      (Linkage_centerOfMass_indices L (List.range' 0 L.nJoints) true ref).map
          (fun c => Linkage_mass L • c)
        = some (Linkage_centerOfMass L ref))
    ∧ (fromJoint < L.nJoints →
      Linkage_mass_indices L (List.range' fromJoint (L.nJoints - fromJoint)) includeTool ≠ 0 →
      (Linkage_centerOfMass_indices L (List.range' fromJoint (L.nJoints - fromJoint))
            includeTool ref).map
          (fun c => Linkage_mass_indices L (List.range' fromJoint (L.nJoints - fromJoint))
            includeTool • c)
        = some (Linkage_centerOfMass_fromJoint L fromJoint includeTool ref))
    ∧ (L.nJoints ≤ fromJoint →
      Linkage_centerOfMass_fromJoint L fromJoint includeTool ref = 0)
    ∧ (∀ indices : List Nat, Linkage_mass_indices L indices includeTool ≠ 0 →
      Linkage_centerOfMass_indices L indices includeTool ref
        = some ((Linkage_mass_indices L indices includeTool)⁻¹ •
            ((indices.map (fun i => (L.joint i).centerOfMass ref)).sum
              + (if includeTool then L.tool.centerOfMass ref else 0))))
    ∧ Linkage_centerOfMass L ref
        = ((List.range' 0 L.nJoints).map (fun i => (L.joint i).centerOfMass ref)).sum
          + L.tool.centerOfMass ref
    ∧ (fromJoint < L.nJoints →
      Linkage_centerOfMass_fromJoint L fromJoint includeTool ref
        = ((List.range' fromJoint (L.nJoints - fromJoint)).map
            (fun i => (L.joint i).centerOfMass ref)).sum
          + (if includeTool then L.tool.centerOfMass ref else 0)) := by
  refine ⟨fun hm => ?_, fun hf hm => ?_, fun hge => ?_, fun indices hm => ?_, rfl,
    fun hf => ?_⟩
  · rw [Linkage_centerOfMass_indices_all]
    exact vdiv_map_smul _ _ hm
  · rw [Linkage_centerOfMass_indices_fromJoint L fromJoint includeTool ref hf]
    exact vdiv_map_smul _ _ hm
  · unfold Linkage_centerOfMass_fromJoint
    rw [if_neg (not_lt.2 hge)]
  · exact Linkage_centerOfMass_indices_of_mass_ne_zero L indices includeTool ref hm
  · unfold Linkage_centerOfMass_fromJoint
    rw [if_pos hf]
    cases includeTool <;> simp

end RangeOverloads

/-- On `twoJointLinks`, from joint 1 without the tool: the scoped mass is 2,
and 2 times the index-list overload is the value of the range overload, which
is `(0, 2, 0)`; from joint 2, out of range, the range overload is zero. -/
theorem centerOfMass_range_eq_mass_smul_indices_witness :
    1 < twoJointLinks.nJoints
    ∧ Linkage_mass_indices twoJointLinks (List.range' 1 (twoJointLinks.nJoints - 1)) false ≠ 0
    ∧ (Linkage_centerOfMass_indices twoJointLinks
          (List.range' 1 (twoJointLinks.nJoints - 1)) false FrameType.WORLD).map
        (fun c => Linkage_mass_indices twoJointLinks
          (List.range' 1 (twoJointLinks.nJoints - 1)) false • c)
      = some (Linkage_centerOfMass_fromJoint twoJointLinks 1 false FrameType.WORLD)
    ∧ Linkage_centerOfMass_fromJoint twoJointLinks 1 false FrameType.WORLD = ![0, 2, 0]
    ∧ twoJointLinks.nJoints ≤ 2
    ∧ Linkage_centerOfMass_fromJoint twoJointLinks 2 true FrameType.WORLD = 0 :=
  have h1 : 1 < twoJointLinks.nJoints := by decide
  have h2 : Linkage_mass_indices twoJointLinks
      (List.range' 1 (twoJointLinks.nJoints - 1)) false ≠ 0 := by
    simp [Linkage_mass_indices, twoJointLinks, pointLink, List.range']
  have h3 : Linkage_centerOfMass_fromJoint twoJointLinks 1 false FrameType.WORLD
      = ![0, 2, 0] := by
    simp [Linkage_centerOfMass_fromJoint, twoJointLinks, pointLink, List.range']
  have h4 : twoJointLinks.nJoints ≤ 2 := by decide
  ⟨h1, h2,
    (centerOfMass_range_eq_mass_smul_indices twoJointLinks 1 false FrameType.WORLD).2.1 h1 h2,
    h3, h4,
    (centerOfMass_range_eq_mass_smul_indices twoJointLinks 2 true FrameType.WORLD).2.2.1 h4⟩

/-- C23 as stated fails on linkages of non-zero mass.  On
`masslessDistalLinks` (total mass 1), from joint 1 without the tool, the range
overload returns the zero vector while the index-list overload over `[1]`
divides by the scoped mass 0 and has no finite value.  On `heavyToolLinks`
(total mass 3) with `fromJoint = nJoints() = 1` and the tool included, the
range overload returns the zero vector while the scoped mass 2 times the
index-list overload over no joints is `(0, 2, 0)`. -/
theorem centerOfMass_fromJoint_ne_mass_smul_indices :
    Linkage_mass masslessDistalLinks = 1
    ∧ Linkage_centerOfMass_fromJoint masslessDistalLinks 1 false FrameType.WORLD = 0
    ∧ Linkage_mass_indices masslessDistalLinks
        (List.range' 1 (masslessDistalLinks.nJoints - 1)) false = 0
    ∧ Linkage_centerOfMass_indices masslessDistalLinks
        (List.range' 1 (masslessDistalLinks.nJoints - 1)) false FrameType.WORLD = none
    ∧ (Linkage_centerOfMass_indices masslessDistalLinks
          (List.range' 1 (masslessDistalLinks.nJoints - 1)) false FrameType.WORLD).map
        (fun c => Linkage_mass_indices masslessDistalLinks
          (List.range' 1 (masslessDistalLinks.nJoints - 1)) false • c)
      ≠ some (Linkage_centerOfMass_fromJoint masslessDistalLinks 1 false FrameType.WORLD)
    ∧ Linkage_mass heavyToolLinks = 3
    ∧ Linkage_centerOfMass_fromJoint heavyToolLinks 1 true FrameType.WORLD = 0
    ∧ (Linkage_centerOfMass_indices heavyToolLinks
          (List.range' 1 (heavyToolLinks.nJoints - 1)) true FrameType.WORLD).map
        (fun c => Linkage_mass_indices heavyToolLinks
          (List.range' 1 (heavyToolLinks.nJoints - 1)) true • c)
      = some ![0, 2, 0] := by
  have hm : Linkage_mass_indices masslessDistalLinks
      (List.range' 1 (masslessDistalLinks.nJoints - 1)) false = 0 := by
    simp [Linkage_mass_indices, masslessDistalLinks, pointLink, List.range']
  have hn : Linkage_centerOfMass_indices masslessDistalLinks
      (List.range' 1 (masslessDistalLinks.nJoints - 1)) false FrameType.WORLD = none := by
    unfold Linkage_centerOfMass_indices
    exact (vdiv_eq_none_iff _ _).2 hm
  have hh : Linkage_mass_indices heavyToolLinks
      (List.range' 1 (heavyToolLinks.nJoints - 1)) true = 2 := by
    simp [Linkage_mass_indices, heavyToolLinks, pointLink, List.range']
  refine ⟨?_, ?_, hm, hn, ?_, ?_, ?_, ?_⟩
  · simp [Linkage_mass, masslessDistalLinks, pointLink, List.range']
  · simp [Linkage_centerOfMass_fromJoint, masslessDistalLinks, pointLink, List.range']
  · rw [hn]
    simp
  · simp [Linkage_mass, heavyToolLinks, pointLink, List.range']
    norm_num
  · simp [Linkage_centerOfMass_fromJoint, heavyToolLinks]
  · have hc : Linkage_centerOfMass_indices heavyToolLinks
        (List.range' 1 (heavyToolLinks.nJoints - 1)) true FrameType.WORLD
        = vdiv (2 • ![0, 1, 0]) 2 := by
      simp [Linkage_centerOfMass_indices, Linkage_mass_indices, heavyToolLinks, pointLink,
        List.range']
    rw [hc, hh, vdiv_map_smul _ _ (by norm_num)]
    simp

section RobotMassAll

variable {K : Type} [LinearOrderedField K]

/-- C24: when `indices` is a permutation of `0 .. nLinkages()-1`,
`Robot::mass(indices, LINKAGE)` equals `Robot::mass()`; for an index type
other than JOINT and LINKAGE, `Robot::mass(indices, type)` is 0 whatever the
indices are. -/
theorem Robot_mass_indices_linkage_of_perm (r : RobotLinks K) (indices : List Nat)
    (typeOfIndex : FrameType) :
    (indices.Perm (List.range' 0 r.nLinkages) →
      Robot_mass_indices r indices FrameType.LINKAGE = Robot_mass r)
    ∧ (typeOfIndex ≠ FrameType.JOINT → typeOfIndex ≠ FrameType.LINKAGE →
      Robot_mass_indices r indices typeOfIndex = 0) := by
  refine ⟨fun h => ?_, fun hj hl => ?_⟩
  · simp only [Robot_mass_indices, Robot_mass, if_true,
      if_neg (by decide : ¬ FrameType.LINKAGE = FrameType.JOINT)]
    rw [(h.map _).sum_eq]
  · simp [Robot_mass_indices, hj, hl]

end RobotMassAll

/-- On `twoLinkageRobot` the list `[1, 0]` is a permutation of the linkage
indices: the scoped mass is `Robot::mass()`, which is 5; with the index type
WORLD the scoped mass is 0. -/
theorem Robot_mass_indices_linkage_of_perm_witness :
    [1, 0].Perm (List.range' 0 twoLinkageRobot.nLinkages)
    ∧ Robot_mass_indices twoLinkageRobot [1, 0] FrameType.LINKAGE = Robot_mass twoLinkageRobot
    ∧ Robot_mass_indices twoLinkageRobot [1, 0] FrameType.WORLD = 0 :=
  have h : [1, 0].Perm (List.range' 0 twoLinkageRobot.nLinkages) := by decide
  ⟨h, (Robot_mass_indices_linkage_of_perm twoLinkageRobot [1, 0] FrameType.WORLD).1 h,
    (Robot_mass_indices_linkage_of_perm twoLinkageRobot [1, 0] FrameType.WORLD).2
      (by decide) (by decide)⟩

theorem Robot_mass_twoLinkageRobot : Robot_mass twoLinkageRobot = 5 := by
  simp [Robot_mass, Linkage_mass, twoLinkageRobot, twoJointLinks, masslessDistalLinks,
    pointLink, List.range']
  norm_num

/-! ## Out-of-range indices in the range overloads -/

section RangeBounds

variable {K : Type} [LinearOrderedField K]

/-- The value of the `fromJoint` overload is the sum of the contributions of
the joints it looks up, plus that of the tool when the index is valid and
`includeTool` is set. -/
theorem Linkage_centerOfMass_fromJoint_eq_sum_accesses (L : LinkageLinks K) (fromJoint : Nat)
    (includeTool : Bool) (ref : FrameType) :
    Linkage_centerOfMass_fromJoint L fromJoint includeTool ref
      = ((Linkage_centerOfMass_fromJoint_accesses L fromJoint).map
          (fun i => (L.joint i).centerOfMass ref)).sum
        + (if fromJoint < L.nJoints ∧ includeTool = true then L.tool.centerOfMass ref
            else 0) := by
  unfold Linkage_centerOfMass_fromJoint Linkage_centerOfMass_fromJoint_accesses
  by_cases h : fromJoint < L.nJoints
  · cases includeTool <;> simp [h]
  · simp [h]

/-- The value of the `fromJoint`/`toJoint` overload is the sum of the
contributions of the joints it looks up. -/
theorem Linkage_centerOfMass_fromTo_eq_sum_accesses (L : LinkageLinks K)
    (fromJoint toJoint : Nat) (ref : FrameType) :
    Linkage_centerOfMass_fromTo L fromJoint toJoint ref
      = ((Linkage_centerOfMass_fromTo_accesses L fromJoint toJoint).map
          (fun i => (L.joint i).centerOfMass ref)).sum := by
  unfold Linkage_centerOfMass_fromTo Linkage_centerOfMass_fromTo_accesses
  split
  · simp
  · split
    · rfl
    · split
      · rfl
      · simp

/-- C25: `Linkage::centerOfMass(fromJoint, includeTool, ref)` returns the zero
vector when `fromJoint ≥ nJoints()`, and
`Linkage::centerOfMass(fromJoint, toJoint, ref)` returns the zero vector when
`fromJoint ≥ nJoints()` or `toJoint ≥ nJoints()`; in those cases no joint is
looked up, and in every case each joint the two overloads look up has an index
below `nJoints()`. -/
theorem centerOfMass_range_out_of_bounds (L : LinkageLinks K) (fromJoint toJoint : Nat)
    (includeTool : Bool) (ref : FrameType) :
    (L.nJoints ≤ fromJoint →
      Linkage_centerOfMass_fromJoint L fromJoint includeTool ref = 0
      ∧ Linkage_centerOfMass_fromJoint_accesses L fromJoint = [])
    ∧ (L.nJoints ≤ fromJoint ∨ L.nJoints ≤ toJoint →
      Linkage_centerOfMass_fromTo L fromJoint toJoint ref = 0
      ∧ Linkage_centerOfMass_fromTo_accesses L fromJoint toJoint = [])
    ∧ (∀ i ∈ Linkage_centerOfMass_fromJoint_accesses L fromJoint, i < L.nJoints)
    ∧ (∀ i ∈ Linkage_centerOfMass_fromTo_accesses L fromJoint toJoint, i < L.nJoints) := by
  refine ⟨fun h => ?_, fun h => ?_, fun i hi => ?_, fun i hi => ?_⟩
  · simp [Linkage_centerOfMass_fromJoint, Linkage_centerOfMass_fromJoint_accesses,
      not_lt.2 h]
  · have h' : fromJoint ≥ L.nJoints ∨ toJoint ≥ L.nJoints := h
    simp [Linkage_centerOfMass_fromTo, Linkage_centerOfMass_fromTo_accesses, h']
  · unfold Linkage_centerOfMass_fromJoint_accesses at hi
    split at hi
    · rw [List.mem_range'_1] at hi
      omega
    · simp at hi
  · unfold Linkage_centerOfMass_fromTo_accesses at hi
    split at hi
    · simp at hi
    · next hr =>
      push_neg at hr
      split at hi
      · rw [List.mem_range'_1] at hi
        omega
      · split at hi
        · rw [List.mem_range'_1] at hi
          omega
        · simp at hi

end RangeBounds

/-- On `twoJointLinks` (two joints) with `fromJoint = 2` and `toJoint = 0`: both
overloads return the zero vector and look up no joint. -/
theorem centerOfMass_range_out_of_bounds_witness :
    twoJointLinks.nJoints ≤ 2
    ∧ Linkage_centerOfMass_fromJoint twoJointLinks 2 true FrameType.WORLD = 0
    ∧ Linkage_centerOfMass_fromJoint_accesses twoJointLinks 2 = []
    ∧ Linkage_centerOfMass_fromTo twoJointLinks 2 0 FrameType.WORLD = 0
    ∧ Linkage_centerOfMass_fromTo_accesses twoJointLinks 2 0 = [] :=
  have h : twoJointLinks.nJoints ≤ 2 := by decide
  ⟨h,
    ((centerOfMass_range_out_of_bounds twoJointLinks 2 0 true FrameType.WORLD).1 h).1,
    ((centerOfMass_range_out_of_bounds twoJointLinks 2 0 true FrameType.WORLD).1 h).2,
    ((centerOfMass_range_out_of_bounds twoJointLinks 2 0 true FrameType.WORLD).2.1
      (Or.inl h)).1,
    ((centerOfMass_range_out_of_bounds twoJointLinks 2 0 true FrameType.WORLD).2.1
      (Or.inl h)).2⟩

/-- With valid indices the lookups are the expected ones: from joint 0 the
first overload looks up joints 0 and 1; from 0 to 1 the second does too. -/
theorem centerOfMass_range_accesses_twoJointLinks :
    Linkage_centerOfMass_fromJoint_accesses twoJointLinks 0 = [0, 1]
    ∧ Linkage_centerOfMass_fromTo_accesses twoJointLinks 0 1 = [0, 1] := by
  constructor <;> rfl

end RobotKin
